import Mathlib

/-! GPIO driver for ATmega328p (`L01/source/driver/gpio.c`)

A shallow embedding of the driver: the nine memory-mapped port registers and the
static `pin_registry` form the machine state, every driver function is a function on
that state, and a `gpio_t*` is an `Option gpio_t` (`none` is the null pointer).

Integer model.  The driver is written for the ATmega328p (`#include <avr/io.h>`), where
`unsigned int` has 16 bits, `uint8_t` 8 bits and `uint32_t` 32 bits.  All values are
natural numbers, reduced modulo `2 ^ w` wherever the C expression is evaluated or stored
in a `w`-bit type.
-/

namespace GpioDriver

/-! ## Constants of `gpio.c` -/

/-- The number of available pins (`#define PIN_COUNT 20U`). -/
def PIN_COUNT : Nat := 20

/-- Pin offset for I/O port B (`#define PIN_OFFSET_B 8U`). -/
def PIN_OFFSET_B : Nat := 8

/-- Pin offset for I/O port C (`#define PIN_OFFSET_C 14U`). -/
def PIN_OFFSET_C : Nat := 14

/-- Pin offset for I/O port D (`#define PIN_OFFSET_D 0U`). -/
def PIN_OFFSET_D : Nat := 0

/-- Bit width of `unsigned int` on the ATmega328p, the type of the literal `1U` and of
every `1U << n` and `~(1U << n)` in the driver. -/
def UINT_BITS : Nat := 16

/-! ## Data model -/

/-- Enumeration of data directions (`gpio_direction_t` of `gpio.h`). -/
inductive gpio_direction_t where
  | GPIO_DIRECTION_IN
  | GPIO_DIRECTION_IN_PULLUP
  | GPIO_DIRECTION_OUT
  deriving DecidableEq, Repr

/-- The nine port registers of `<avr/io.h>` the driver takes the address of. -/
inductive Reg where
  | DDRB | PORTB | PINB
  | DDRC | PORTC | PINC
  | DDRD | PORTD | PIND
  deriving DecidableEq, Repr

/-- The GPIO structure `struct gpio`: three register pointers, the pin on the
associated I/O port and the pin ID. -/
structure gpio_t where
  ddrx : Reg
  portx : Reg
  pinx : Reg
  pin : Nat
  id : Nat
  deriving DecidableEq, Repr

/-- The machine state the driver acts on: the content of the nine 8-bit port registers
and of the static `uint32_t pin_registry` (1 = reserved, 0 = free). For a `PINx`
register the field is the value a load from it returns. -/
structure Mcu where
  ddrb : Nat
  portb : Nat
  pinb : Nat
  ddrc : Nat
  portc : Nat
  pinc : Nat
  ddrd : Nat
  portd : Nat
  pind : Nat
  pin_registry : Nat
  deriving DecidableEq, Repr

/-- The state at program start: `pin_registry = 0U`, all port registers at their reset
value zero. -/
def Mcu.reset : Mcu :=
  { ddrb := 0, portb := 0, pinb := 0, ddrc := 0, portc := 0, pinc := 0,
    ddrd := 0, portd := 0, pind := 0, pin_registry := 0 }

/-- A load `*(p)` through a `volatile uint8_t*`. -/
def load (r : Reg) (s : Mcu) : Nat :=
  match r with
  | .DDRB => s.ddrb
  | .PORTB => s.portb
  | .PINB => s.pinb
  | .DDRC => s.ddrc
  | .PORTC => s.portc
  | .PINC => s.pinc
  | .DDRD => s.ddrd
  | .PORTD => s.portd
  | .PIND => s.pind

/-- Modelled from the spec: the reaction of the hardware to a store of `v` to an input
register `PINx`, which is not part of the C source. Each 1 bit of the stored byte flips
the corresponding bit of the output register `PORTx` (the idiom the comment in
`gpio_toggle` relies on); the value later loaded from `PINx` is left to the hardware. -/
def pin_store_flip (port v : Nat) : Nat := (port ^^^ (v % 256)) % 256

/-- A store `*(p) = v` through a `volatile uint8_t*`: the value is truncated to eight
bits; a `DDRx` or `PORTx` register keeps it, a `PINx` register reacts as
`pin_store_flip` says. -/
def store (r : Reg) (v : Nat) (s : Mcu) : Mcu :=
  match r with
  | .DDRB => { s with ddrb := v % 256 }
  | .PORTB => { s with portb := v % 256 }
  | .PINB => { s with portb := pin_store_flip s.portb v }
  | .DDRC => { s with ddrc := v % 256 }
  | .PORTC => { s with portc := v % 256 }
  | .PINC => { s with portc := pin_store_flip s.portc v }
  | .DDRD => { s with ddrd := v % 256 }
  | .PORTD => { s with portd := v % 256 }
  | .PIND => { s with portd := pin_store_flip s.portd v }

/-! ## Integer expressions -/

/-- The expression `1U << n` in `unsigned int`: the shifted value reduced to
`UINT_BITS` bits. For `n < 16` this is the single bit `2 ^ n`. For `n ≥ 16` the C
standard leaves the shift undefined; the value taken here is the one the shift loop of
the target produces, with the only 1 bit shifted out. -/
def shl_1U (n : Nat) : Nat := (1 <<< n) % 2 ^ UINT_BITS

/-- The expression `~m` for an `unsigned int` value `m`: the complement within
`UINT_BITS` bits. -/
def not_uint (m : Nat) : Nat := (2 ^ UINT_BITS - 1) ^^^ m

/-- The result of `a - b` for a `uint8_t a` and an `unsigned int` constant `b`, stored
in a `uint8_t`: the difference modulo `2 ^ 16`, truncated to eight bits. -/
def sub_u8 (a b : Nat) : Nat := ((a + 2 ^ UINT_BITS - b) % 2 ^ UINT_BITS) % 256

/-! ## Pin registry -/

/-- Return true if the corresponding bit in the pin registry is 0, false otherwise:
`PIN_COUNT > id ? (0U == (pin_registry & (1U << id))) : false`. -/
def is_pin_free (id : Nat) (s : Mcu) : Bool :=
  if PIN_COUNT > id then decide (0 = (s.pin_registry &&& shl_1U id)) else false

/-- Set the corresponding bit in the pin registry: `pin_registry |= (1U << id)`. -/
def reserve_pin (id : Nat) (s : Mcu) : Mcu :=
  { s with pin_registry := (s.pin_registry ||| shl_1U id) % 2 ^ 32 }

/-- Clear the corresponding bit in the pin registry: `pin_registry &= ~(1U << id)`.
The complement is taken in `unsigned int` and then widened to `uint32_t`. -/
def release_pin (id : Nat) (s : Mcu) : Mcu :=
  { s with pin_registry := (s.pin_registry &&& not_uint (shl_1U id)) % 2 ^ 32 }

/-! ## Driver functions -/

/-- The test `(bool)(*(self->ddrx) & (1U << self->pin))`. -/
def gpio_is_output (self : gpio_t) (s : Mcu) : Bool :=
  decide ((load self.ddrx s &&& shl_1U self.pin) ≠ 0)

/-- The statement `*(r) |= (1U << pin)`. -/
def set_bit (r : Reg) (pin : Nat) (s : Mcu) : Mcu :=
  store r (load r s ||| shl_1U pin) s

/-- The statement `*(r) &= ~(1U << pin)`. -/
def clear_bit (r : Reg) (pin : Nat) (s : Mcu) : Mcu :=
  store r (load r s &&& not_uint (shl_1U pin)) s

/-- The first half of `gpio_init`: the fields written to `*self` for a pin number. -/
def gpio_map (pin : Nat) : gpio_t :=
  if PIN_OFFSET_B > pin then
    { ddrx := .DDRD, portx := .PORTD, pinx := .PIND, pin := sub_u8 pin PIN_OFFSET_D, id := pin }
  else if PIN_OFFSET_C > pin then
    { ddrx := .DDRB, portx := .PORTB, pinx := .PINB, pin := sub_u8 pin PIN_OFFSET_B, id := pin }
  else
    { ddrx := .DDRC, portx := .PORTC, pinx := .PINC, pin := sub_u8 pin PIN_OFFSET_C, id := pin }

/-- The function `gpio_init`: fill the structure, set the data direction, reserve the
pin. Returns the new state and the initialised structure. The last branch of the match
is the `default:` of the `switch`, taken for `GPIO_DIRECTION_IN`. -/
def gpio_init (pin : Nat) (direction : gpio_direction_t) (s : Mcu) : Mcu × gpio_t :=
  let self := gpio_map pin
  let s1 :=
    match direction with
    | .GPIO_DIRECTION_IN_PULLUP => set_bit self.portx self.pin (clear_bit self.ddrx self.pin s)
    | .GPIO_DIRECTION_OUT => clear_bit self.portx self.pin (set_bit self.ddrx self.pin s)
    | .GPIO_DIRECTION_IN => clear_bit self.portx self.pin (clear_bit self.ddrx self.pin s)
  (reserve_pin pin s1, self)

/-- The function `gpio_cleanup`: clear the associated bits in the GPIO registers and
the pin registry. -/
def gpio_cleanup (self : gpio_t) (s : Mcu) : Mcu :=
  release_pin self.id (clear_bit self.portx self.pin (clear_bit self.ddrx self.pin s))

/-- The function `gpio_new`. `malloc_ok` tells whether `malloc` returns a non-null
pointer. The result is the new state and the returned pointer. -/
def gpio_new (pin : Nat) (direction : gpio_direction_t) (malloc_ok : Bool) (s : Mcu) :
    Mcu × Option gpio_t :=
  if !is_pin_free pin s then (s, none)
  else if !malloc_ok then (s, none)
  else
    let r := gpio_init pin direction s
    (r.1, some r.2)

/-- The function `gpio_del`. The argument is the `gpio_t**`: `none` is a null double
pointer, `some p` a pointer to the caller's variable holding `p`. The result is the new
state and the double pointer with the content of the caller's variable after the call.
The call `free(*self)` touches no register and not the registry, so it leaves the state
modelled here as it is. -/
def gpio_del (self : Option (Option gpio_t)) (s : Mcu) : Mcu × Option (Option gpio_t) :=
  match self with
  | none => (s, none)
  | some none => (s, some none)
  | some (some g) => (gpio_cleanup g s, some none)

/-- The function `gpio_read`: the new state (no store is made) and the returned value. -/
def gpio_read (self : Option gpio_t) (s : Mcu) : Mcu × Bool :=
  match self with
  | none => (s, false)
  | some g => (s, decide ((load g.pinx s &&& shl_1U g.pin) ≠ 0))

/-- The function `gpio_write`. -/
def gpio_write (self : Option gpio_t) (value : Bool) (s : Mcu) : Mcu :=
  match self with
  | none => s
  | some g =>
    if !gpio_is_output g s then s
    else if value then set_bit g.portx g.pin s
    else clear_bit g.portx g.pin s

/-- The function `gpio_toggle`: for an output, `*(self->pinx) |= (1U << self->pin)`. -/
def gpio_toggle (self : Option gpio_t) (s : Mcu) : Mcu :=
  match self with
  | none => s
  | some g =>
    if !gpio_is_output g s then s
    else set_bit g.pinx g.pin s

/-! ## Auxiliary predicate for the proofs -/

/-- The three register pointers of a structure belong to one and the same I/O port. -/
def on_one_port (g : gpio_t) : Prop :=
  (g.ddrx = .DDRB ∧ g.portx = .PORTB ∧ g.pinx = .PINB) ∨
  (g.ddrx = .DDRC ∧ g.portx = .PORTC ∧ g.pinx = .PINC) ∨
  (g.ddrx = .DDRD ∧ g.portx = .PORTD ∧ g.pinx = .PIND)

instance (g : gpio_t) : Decidable (on_one_port g) := by
  unfold on_one_port
  exact inferInstance

/-! ## Hardware echo of an output level -/

/-- Modelled from the spec: the levels the hardware presents on the input register of
one port, which is not part of the C source ("reading an output echoes its driven
level"). A pin configured as output (direction bit 1) shows its output-register bit, a
pin configured as input keeps the externally driven level held in the `PINx` field. -/
def echo_levels (ddr port pin : Nat) : Nat :=
  ((ddr &&& port) ||| ((255 ^^^ ddr) &&& pin)) % 256

/-- Modelled from the spec: the hardware settling between two driver calls, `PINx`
taking the levels of `echo_levels` on each of the three ports. -/
def hw_echo (s : Mcu) : Mcu :=
  { s with
    pinb := echo_levels s.ddrb s.portb s.pinb
    pinc := echo_levels s.ddrc s.portc s.pinc
    pind := echo_levels s.ddrd s.portd s.pind }

/-! ## Programs of a caller -/

/-- One step of a caller's program: a call of one of the five functions of `gpio.h`, or
the hardware presenting new levels on the three input registers. -/
inductive Call where
  | new (pin : Nat) (direction : gpio_direction_t) (malloc_ok : Bool)
  | del (g : gpio_t)
  | read (g : gpio_t)
  | write (g : gpio_t) (value : Bool)
  | toggle (g : gpio_t)
  | levels (b c d : Nat)
  deriving DecidableEq, Repr

/-- The machine state together with the structures the caller holds: those returned by
`gpio_new` and not yet passed to `gpio_del`. -/
structure World where
  mcu : Mcu
  live : List gpio_t
  deriving DecidableEq, Repr

/-- Program start: the registry is 0 (`static uint32_t pin_registry = 0U`), the caller
holds no structure, the port registers are those of `s`. -/
def World.start (s : Mcu) : World :=
  { mcu := { s with pin_registry := 0 }, live := [] }

/-- The effect of one step. A structure is used only while the caller holds it; a step
that names another structure is skipped. -/
def World.step (w : World) (c : Call) : World :=
  match c with
  | .new pin direction malloc_ok =>
    match gpio_new pin direction malloc_ok w.mcu with
    | (s, some g) => { mcu := s, live := g :: w.live }
    | (s, none) => { mcu := s, live := w.live }
  | .del g =>
    if g ∈ w.live then { mcu := (gpio_del (some (some g)) w.mcu).1, live := w.live.erase g }
    else w
  | .read g =>
    if g ∈ w.live then { mcu := (gpio_read (some g) w.mcu).1, live := w.live } else w
  | .write g value =>
    if g ∈ w.live then { mcu := gpio_write (some g) value w.mcu, live := w.live } else w
  | .toggle g =>
    if g ∈ w.live then { mcu := gpio_toggle (some g) w.mcu, live := w.live } else w
  | .levels b c d =>
    { mcu := { w.mcu with pinb := b % 256, pinc := c % 256, pind := d % 256 }, live := w.live }

/-- The state after a whole program. -/
def World.run (w : World) (cs : List Call) : World :=
  cs.foldl World.step w

/-- The number of structures the caller holds for one pin id. -/
def live_count (w : World) (id : Nat) : Nat :=
  w.live.countP (fun g => decide (g.id = id))

/-! ## Failure kinds of the spec -/

/-- The three failure kinds in the spec's words (section 7, error handling design); the
C source declares no such type. -/
inductive spec_failure_kind where
  | PinUnavailable
  | InvalidPin
  | AllocationFailure
  deriving DecidableEq, Repr

/-! ## Shift counts of the registry operations -/

/-- The shift counts of the `1U << id` evaluated by `is_pin_free(id)`: the shift stands
in the true branch of `PIN_COUNT > id ? ... : false`. -/
def is_pin_free_shifts (id : Nat) : List Nat :=
  if PIN_COUNT > id then [id] else []

/-- The shift counts of the `1U << id` evaluated in the registry operations during
`gpio_new(pin, ..)`: the one of `is_pin_free(pin)`, then the one of `reserve_pin(pin)`
when `gpio_init` is reached. -/
def gpio_new_shifts (pin : Nat) (malloc_ok : Bool) (s : Mcu) : List Nat :=
  is_pin_free_shifts pin ++
    (if !is_pin_free pin s then [] else if !malloc_ok then [] else [pin])

/-- The shift counts of the `1U << id` evaluated in the registry operations during
`gpio_del`: the one of `release_pin(self->id)` when `gpio_cleanup` is reached. -/
def gpio_del_shifts (self : Option (Option gpio_t)) : List Nat :=
  match self with
  | some (some g) => [g.id]
  | _ => []

/-! ## Frame of a call -/

/-- The state `t2` differs from `t` at most in bit `g.pin` of the direction register
and of the output register of `g` and in registry bit `p`: every other bit of the nine
8-bit registers and every other registry bit is the same. -/
def changes_at_most (g : gpio_t) (p : Nat) (t t2 : Mcu) : Prop :=
  (∀ r j, j < 8 → ¬ (j = g.pin ∧ (r = g.ddrx ∨ r = g.portx)) →
    (load r t2).testBit j = (load r t).testBit j) ∧
  (∀ j, j ≠ p → t2.pin_registry.testBit j = t.pin_registry.testBit j)

/-- The state `t2` has the same direction-register bit, output-register bit and
registry bit for pin `q` as the state `t`, at the register and bit offset `gpio_init`
resolves `q` to. -/
def keeps_pin (q : Nat) (t t2 : Mcu) : Prop :=
  (load (gpio_map q).ddrx t2).testBit (gpio_map q).pin
    = (load (gpio_map q).ddrx t).testBit (gpio_map q).pin ∧
  (load (gpio_map q).portx t2).testBit (gpio_map q).pin
    = (load (gpio_map q).portx t).testBit (gpio_map q).pin ∧
  t2.pin_registry.testBit q = t.pin_registry.testBit q

/-! ## Bit-level facts about the integer expressions -/

theorem testBit_shl_1U (n j : Nat) :
    (shl_1U n).testBit j = (decide (j < 16) && decide (n = j)) := by
  unfold shl_1U UINT_BITS
  rw [Nat.testBit_mod_two_pow, Nat.one_shiftLeft, Nat.testBit_two_pow]

theorem testBit_not_uint (m j : Nat) :
    (not_uint m).testBit j = (decide (j < 16) ^^ m.testBit j) := by
  unfold not_uint UINT_BITS
  rw [Nat.testBit_xor, Nat.testBit_two_pow_sub_one]

theorem and_shl_1U_eq_zero (x n : Nat) :
    (x &&& shl_1U n = 0) ↔ ¬ (n < 16 ∧ x.testBit n = true) := by
  constructor
  · rintro h ⟨hn, hb⟩
    have h2 := congrArg (fun y => y.testBit n) h
    simp [testBit_shl_1U, hn, hb] at h2
  · intro h
    apply Nat.eq_of_testBit_eq
    intro j
    simp only [Nat.testBit_and, testBit_shl_1U, Nat.zero_testBit]
    by_cases hj : n = j
    · subst hj
      by_cases hn : n < 16 <;> simp_all
    · simp [hj]

/-- The registry test of `is_pin_free` in terms of the registry bit: an id is reported
free exactly when it is below `PIN_COUNT` and its bit is not visible through the 16-bit
mask. -/
theorem is_pin_free_eq (id : Nat) (s : Mcu) :
    is_pin_free id s = (decide (id < 20) && !(decide (id < 16) && s.pin_registry.testBit id)) := by
  unfold is_pin_free PIN_COUNT
  have hz := and_shl_1U_eq_zero s.pin_registry id
  by_cases h20 : id < 20
  · rw [if_pos h20]
    by_cases hc : s.pin_registry &&& shl_1U id = 0
    · have h1 := hz.mp hc
      rw [hc]
      by_cases hn : id < 16
      · have hb : s.pin_registry.testBit id = false := by
          cases hb : s.pin_registry.testBit id
          · rfl
          · exact absurd ⟨hn, hb⟩ h1
        simp [h20, hb]
      · simp [h20, hn]
    · have h1 : id < 16 ∧ s.pin_registry.testBit id = true := by
        by_contra hcon
        exact hc (hz.mpr hcon)
      have hc2 : ¬ (0 = s.pin_registry &&& shl_1U id) := fun h => hc h.symm
      simp [h20, h1.1, h1.2, hc2]
  · rw [if_neg h20]
    simp [h20]

/-- The test `gpio_is_output` in terms of the direction-register bit. -/
theorem gpio_is_output_eq (g : gpio_t) (s : Mcu) :
    gpio_is_output g s = (decide (g.pin < 16) && (load g.ddrx s).testBit g.pin) := by
  unfold gpio_is_output
  have hz := and_shl_1U_eq_zero (load g.ddrx s) g.pin
  by_cases hc : load g.ddrx s &&& shl_1U g.pin = 0
  · have h1 := hz.mp hc
    rw [hc]
    by_cases hn : g.pin < 16
    · have hb : (load g.ddrx s).testBit g.pin = false := by
        cases hb : (load g.ddrx s).testBit g.pin
        · rfl
        · exact absurd ⟨hn, hb⟩ h1
      simp [hb]
    · simp [hn]
  · have h1 : g.pin < 16 ∧ (load g.ddrx s).testBit g.pin = true := by
      by_contra hcon
      exact hc (hz.mpr hcon)
    simp [h1.1, h1.2, hc]

theorem testBit_mod_256 (x j : Nat) :
    (x % 256).testBit j = (decide (j < 8) && x.testBit j) :=
  Nat.testBit_mod_two_pow x 8 j

theorem testBit_mod_u32 (x j : Nat) :
    (x % 2 ^ 32).testBit j = (decide (j < 32) && x.testBit j) :=
  Nat.testBit_mod_two_pow x 32 j

/-- Bit `n` after `x |= (1U << n)` in an 8-bit register. -/
theorem testBit_set_same (x n : Nat) (hn : n < 8) :
    ((x ||| shl_1U n) % 256).testBit n = true := by
  have h16 : n < 16 := by omega
  simp [testBit_mod_256, testBit_shl_1U, hn, h16]

/-- Bit `n` after `x &= ~(1U << n)` in an 8-bit register. -/
theorem testBit_clear_same (x n : Nat) :
    ((x &&& not_uint (shl_1U n)) % 256).testBit n = false := by
  by_cases hn : n < 8
  · have h16 : n < 16 := by omega
    simp [testBit_mod_256, testBit_not_uint, testBit_shl_1U, hn, h16]
  · simp [testBit_mod_256, hn]

/-- The other bits of an 8-bit register value keep their value under `x |= (1U << n)`. -/
theorem set_other (x n j : Nat) (hx : x < 256) (hj : n ≠ j) :
    ((x ||| shl_1U n) % 256).testBit j = x.testBit j := by
  by_cases h8 : j < 8
  · simp [testBit_mod_256, testBit_shl_1U, h8, hj]
  · have hlt : x < 2 ^ j := by
      have h8b : 8 ≤ j := by omega
      calc x < 2 ^ 8 := hx
        _ ≤ 2 ^ j := Nat.pow_le_pow_right (by decide) h8b
    simp [testBit_mod_256, h8, Nat.testBit_lt_two_pow hlt]

/-- The other bits of an 8-bit register value keep their value under `x &= ~(1U << n)`. -/
theorem clear_other (x n j : Nat) (hx : x < 256) (hj : n ≠ j) :
    ((x &&& not_uint (shl_1U n)) % 256).testBit j = x.testBit j := by
  by_cases h8 : j < 8
  · have h16 : j < 16 := by omega
    simp [testBit_mod_256, testBit_not_uint, testBit_shl_1U, h8, h16, hj]
  · have hlt : x < 2 ^ j := by
      have h8b : 8 ≤ j := by omega
      calc x < 2 ^ 8 := hx
        _ ≤ 2 ^ j := Nat.pow_le_pow_right (by decide) h8b
    simp [testBit_mod_256, h8, Nat.testBit_lt_two_pow hlt]

/-! ## Facts about the state functions -/

theorem store_pin_registry (r : Reg) (v : Nat) (s : Mcu) :
    (store r v s).pin_registry = s.pin_registry := by
  cases r <;> rfl

theorem set_bit_pin_registry (r : Reg) (n : Nat) (s : Mcu) :
    (set_bit r n s).pin_registry = s.pin_registry :=
  store_pin_registry r _ s

theorem clear_bit_pin_registry (r : Reg) (n : Nat) (s : Mcu) :
    (clear_bit r n s).pin_registry = s.pin_registry :=
  store_pin_registry r _ s

/-- The registry after `gpio_init`: the old registry with the 16-bit mask of the pin. -/
theorem gpio_init_pin_registry (p : Nat) (d : gpio_direction_t) (s : Mcu) :
    (gpio_init p d s).1.pin_registry = (s.pin_registry ||| shl_1U p) % 2 ^ 32 := by
  cases d <;>
    simp [gpio_init, reserve_pin, set_bit_pin_registry, clear_bit_pin_registry]

/-- The structure `gpio_init` fills for a valid pin: one port, a bit offset below 8,
the pin number as id. -/
theorem gpio_map_valid (p : Nat) (hp : p < 20) :
    on_one_port (gpio_map p) ∧ (gpio_map p).pin < 8 ∧ (gpio_map p).id = p := by
  interval_cases p <;> decide

/-- What a successful `gpio_new` tells: the pin was reported free, `malloc` succeeded,
and the result is that of `gpio_init`. -/
theorem gpio_new_some {p : Nat} {d : gpio_direction_t} {ok : Bool} {s s1 : Mcu} {g : gpio_t}
    (h : gpio_new p d ok s = (s1, some g)) :
    is_pin_free p s = true ∧ ok = true ∧ p < 20 ∧ g = gpio_map p ∧
      s1 = (gpio_init p d s).1 := by
  unfold gpio_new at h
  cases hf : is_pin_free p s
  · simp [hf] at h
  · cases ok
    · simp [hf] at h
    · simp [hf] at h
      have h20 : p < 20 := by
        rw [is_pin_free_eq] at hf
        simp at hf
        exact hf.1
      exact ⟨rfl, rfl, h20, h.2.symm, h.1.symm⟩

/-- A `gpio_new` for a pin reported free succeeds when `malloc` does. -/
theorem gpio_new_of_free (p : Nat) (d : gpio_direction_t) (s : Mcu)
    (hf : is_pin_free p s = true) :
    gpio_new p d true s = ((gpio_init p d s).1, some (gpio_map p)) := by
  simp [gpio_new, hf, gpio_init]

/-! ## Exclusive ownership (claims C1 to C3) -/

/-- For a pin id below 16 the second `gpio_new` without a `gpio_del` in between returns
the null pointer, whatever the directions and the `malloc` result of the second call. -/
theorem gpio_new_twice_fails_of_lt_16 (p : Nat) (hp : p < 16) (d1 d2 : gpio_direction_t)
    (ok1 ok2 : Bool) (s s1 : Mcu) (g : gpio_t) (h1 : gpio_new p d1 ok1 s = (s1, some g)) :
    gpio_new p d2 ok2 s1 = (s1, none) := by
  obtain ⟨-, -, -, -, hs1⟩ := gpio_new_some h1
  have hbit : s1.pin_registry.testBit p = true := by
    have h32 : p < 32 := by omega
    rw [hs1, gpio_init_pin_registry, testBit_mod_u32]
    simp [testBit_shl_1U, hp, h32]
  have hfree : is_pin_free p s1 = false := by
    rw [is_pin_free_eq]
    simp [hp, hbit]
  simp [gpio_new, hfree]

/-- C1, evaluated at pin 16: on the reset state pin 16 is free and
`gpio_new(16, GPIO_DIRECTION_OUT)` returns a structure, the registry is still 0
afterwards, and the directly following `gpio_new(16, GPIO_DIRECTION_IN)` returns a
structure as well instead of the null pointer: `1U << 16` is 0 in the 16-bit
`unsigned int`, so `reserve_pin` sets no bit. -/
theorem gpio_new_pin16_twice_succeeds :
    is_pin_free 16 Mcu.reset = true ∧
    (gpio_new 16 .GPIO_DIRECTION_OUT true Mcu.reset).2 = some (gpio_map 16) ∧
    (gpio_new 16 .GPIO_DIRECTION_OUT true Mcu.reset).1.pin_registry = 0 ∧
    (gpio_new 16 .GPIO_DIRECTION_IN true
      (gpio_new 16 .GPIO_DIRECTION_OUT true Mcu.reset).1).2 = some (gpio_map 16) := by
  decide

/-- C2, evaluated at pin 16: after the successful `gpio_new(16, GPIO_DIRECTION_OUT)` on
the reset state, `is_pin_free(16)` is still true although no `gpio_del` was called. -/
theorem is_pin_free_pin16_after_gpio_new :
    (gpio_new 16 .GPIO_DIRECTION_OUT true Mcu.reset).2 ≠ none ∧
    is_pin_free 16 (gpio_new 16 .GPIO_DIRECTION_OUT true Mcu.reset).1 = true := by
  decide

/-- For a pin id below 16, `is_pin_free` is false after a successful `gpio_new` and true
again after `gpio_del` of the structure, in whatever state `gpio_del` is called. -/
theorem is_pin_free_cycle_of_lt_16 (p : Nat) (hp : p < 16) (d : gpio_direction_t) (ok : Bool)
    (s s1 t : Mcu) (g : gpio_t) (h1 : gpio_new p d ok s = (s1, some g)) :
    is_pin_free p s1 = false ∧ is_pin_free p (gpio_del (some (some g)) t).1 = true := by
  obtain ⟨-, -, h20, hg, hs1⟩ := gpio_new_some h1
  have h32 : p < 32 := by omega
  have hid : g.id = p := by rw [hg]; exact (gpio_map_valid p h20).2.2
  constructor
  · rw [is_pin_free_eq, hs1, gpio_init_pin_registry, testBit_mod_u32]
    simp [testBit_shl_1U, hp, h32]
  · rw [is_pin_free_eq]
    simp only [gpio_del, gpio_cleanup, release_pin, hid]
    rw [testBit_mod_u32]
    simp [testBit_not_uint, testBit_shl_1U, hp, h32, h20]

/-- C3: for every pin argument `p ≥ 20` (in particular every `uint8_t` value 20..255),
every direction, every `malloc` result and every state, `gpio_new` returns the null
pointer and leaves the state as it is. -/
theorem gpio_new_out_of_range (p : Nat) (hp : 20 ≤ p) (d : gpio_direction_t) (ok : Bool)
    (s : Mcu) : gpio_new p d ok s = (s, none) := by
  have hfree : is_pin_free p s = false := by
    rw [is_pin_free_eq]
    have h : ¬ p < 20 := by omega
    simp [h]
  simp [gpio_new, hfree]

/-- Witness of C3 at the largest `uint8_t` value. -/
theorem gpio_new_out_of_range_witness :
    20 ≤ 255 ∧ gpio_new 255 .GPIO_DIRECTION_OUT true Mcu.reset = (Mcu.reset, none) :=
  ⟨by decide, gpio_new_out_of_range 255 (by decide) .GPIO_DIRECTION_OUT true Mcu.reset⟩

/-! ## Pin mapping (claim C4) -/

/-- C4: for valid ids `p`, `q` the structure filled by `gpio_init` follows the fixed
table (ids 0..7 port D with offset `p`, ids 8..13 port B with offset `p - 8`, ids 14..19
port C with offset `p - 14`), it refers to a single port, its bit offset is below 8, and
two distinct ids never share a register together with the bit offset. -/
theorem gpio_init_mapping (p q : Nat) (hp : p < 20) (hq : q < 20)
    (d d2 : gpio_direction_t) (s s2 : Mcu) :
    (p < 8 → (gpio_init p d s).2 =
      { ddrx := .DDRD, portx := .PORTD, pinx := .PIND, pin := p, id := p }) ∧
    (8 ≤ p → p < 14 → (gpio_init p d s).2 =
      { ddrx := .DDRB, portx := .PORTB, pinx := .PINB, pin := p - 8, id := p }) ∧
    (14 ≤ p → (gpio_init p d s).2 =
      { ddrx := .DDRC, portx := .PORTC, pinx := .PINC, pin := p - 14, id := p }) ∧
    on_one_port (gpio_init p d s).2 ∧
    (gpio_init p d s).2.pin < 8 ∧
    (p ≠ q → ¬ (((gpio_init p d s).2.ddrx = (gpio_init q d2 s2).2.ddrx ∨
                 (gpio_init p d s).2.portx = (gpio_init q d2 s2).2.portx ∨
                 (gpio_init p d s).2.pinx = (gpio_init q d2 s2).2.pinx) ∧
                (gpio_init p d s).2.pin = (gpio_init q d2 s2).2.pin)) := by
  have e1 : (gpio_init p d s).2 = gpio_map p := rfl
  have e2 : (gpio_init q d2 s2).2 = gpio_map q := rfl
  rw [e1, e2]
  refine ⟨?_, ?_, ?_, (gpio_map_valid p hp).1, (gpio_map_valid p hp).2.1, ?_⟩
  · intro h
    interval_cases p <;> decide
  · intro h1 h2
    interval_cases p <;> decide
  · intro h
    interval_cases p <;> decide
  · intro hne
    interval_cases p <;> interval_cases q <;> first | exact absurd rfl hne | decide

/-- Witness of C4 at the ids 13 and 5. -/
theorem gpio_init_mapping_witness :
    (gpio_init 13 .GPIO_DIRECTION_IN_PULLUP Mcu.reset).2 =
      { ddrx := .DDRB, portx := .PORTB, pinx := .PINB, pin := 13 - 8, id := 13 } ∧
    (gpio_init 13 .GPIO_DIRECTION_IN_PULLUP Mcu.reset).2.pin < 8 ∧
    ¬ (((gpio_init 13 .GPIO_DIRECTION_IN_PULLUP Mcu.reset).2.ddrx =
          (gpio_init 5 .GPIO_DIRECTION_OUT Mcu.reset).2.ddrx ∨
        (gpio_init 13 .GPIO_DIRECTION_IN_PULLUP Mcu.reset).2.portx =
          (gpio_init 5 .GPIO_DIRECTION_OUT Mcu.reset).2.portx ∨
        (gpio_init 13 .GPIO_DIRECTION_IN_PULLUP Mcu.reset).2.pinx =
          (gpio_init 5 .GPIO_DIRECTION_OUT Mcu.reset).2.pinx) ∧
       (gpio_init 13 .GPIO_DIRECTION_IN_PULLUP Mcu.reset).2.pin =
          (gpio_init 5 .GPIO_DIRECTION_OUT Mcu.reset).2.pin) :=
  have h := gpio_init_mapping 13 5 (by decide) (by decide)
    .GPIO_DIRECTION_IN_PULLUP .GPIO_DIRECTION_OUT Mcu.reset Mcu.reset
  ⟨h.2.1 (by decide) (by decide), h.2.2.2.2.1, h.2.2.2.2.2 (by decide)⟩

/-! ## Programming the registers (claims C5 to C9) -/

theorem load_reserve_pin (r : Reg) (p : Nat) (s : Mcu) :
    load r (reserve_pin p s) = load r s := by
  cases r <;> rfl

theorem load_release_pin (r : Reg) (p : Nat) (s : Mcu) :
    load r (release_pin p s) = load r s := by
  cases r <;> rfl

/-- The direction and output bits of the pin after the three branches of the `switch`
in `gpio_init`, for a structure on one port with a bit offset below 8. -/
theorem direction_bits (g : gpio_t) (hport : on_one_port g) (hpin : g.pin < 8) (s : Mcu) :
    ((load g.ddrx (clear_bit g.portx g.pin (set_bit g.ddrx g.pin s))).testBit g.pin = true ∧
     (load g.portx (clear_bit g.portx g.pin (set_bit g.ddrx g.pin s))).testBit g.pin = false) ∧
    ((load g.ddrx (set_bit g.portx g.pin (clear_bit g.ddrx g.pin s))).testBit g.pin = false ∧
     (load g.portx (set_bit g.portx g.pin (clear_bit g.ddrx g.pin s))).testBit g.pin = true) ∧
    ((load g.ddrx (clear_bit g.portx g.pin (clear_bit g.ddrx g.pin s))).testBit g.pin = false ∧
     (load g.portx (clear_bit g.portx g.pin (clear_bit g.ddrx g.pin s))).testBit g.pin = false) := by
  rcases hport with ⟨hd, hp, -⟩ | ⟨hd, hp, -⟩ | ⟨hd, hp, -⟩ <;>
    simp only [hd, hp, set_bit, clear_bit, store, load] <;>
    exact ⟨⟨testBit_set_same _ _ hpin, testBit_clear_same _ _⟩,
      ⟨testBit_clear_same _ _, testBit_set_same _ _ hpin⟩,
      ⟨testBit_clear_same _ _, testBit_clear_same _ _⟩⟩

/-- C5: for every pin `p` that `is_pin_free` reports free (so `p` is in 0..19) and every
state, `gpio_new(p, d)` with a successful `malloc` returns a structure, and afterwards
the pin has direction bit 1 and output bit 0 for `GPIO_DIRECTION_OUT`, direction bit 0
and output bit 1 for `GPIO_DIRECTION_IN_PULLUP`, direction bit 0 and output bit 0 for
`GPIO_DIRECTION_IN`, whatever the two bits held before. -/
theorem gpio_new_programs_direction (p : Nat) (d : gpio_direction_t) (s : Mcu)
    (hfree : is_pin_free p s = true) :
    ∃ g s1, gpio_new p d true s = (s1, some g) ∧
      (d = .GPIO_DIRECTION_OUT →
        (load g.ddrx s1).testBit g.pin = true ∧ (load g.portx s1).testBit g.pin = false) ∧
      (d = .GPIO_DIRECTION_IN_PULLUP →
        (load g.ddrx s1).testBit g.pin = false ∧ (load g.portx s1).testBit g.pin = true) ∧
      (d = .GPIO_DIRECTION_IN →
        (load g.ddrx s1).testBit g.pin = false ∧ (load g.portx s1).testBit g.pin = false) := by
  have h20 : p < 20 := by
    rw [is_pin_free_eq] at hfree
    simp at hfree
    exact hfree.1
  obtain ⟨hport, hpin, -⟩ := gpio_map_valid p h20
  obtain ⟨hout, hpull, hin⟩ := direction_bits (gpio_map p) hport hpin s
  refine ⟨gpio_map p, (gpio_init p d s).1, gpio_new_of_free p d s hfree, ?_, ?_, ?_⟩
  · intro hd
    subst hd
    simpa only [gpio_init, load_reserve_pin] using hout
  · intro hd
    subst hd
    simpa only [gpio_init, load_reserve_pin] using hpull
  · intro hd
    subst hd
    simpa only [gpio_init, load_reserve_pin] using hin

/-- Witness of C5: pin 8 on a state whose port B registers have every bit in the
opposite state of what an output needs. -/
theorem gpio_new_programs_direction_witness :
    ∃ g s1, gpio_new 8 .GPIO_DIRECTION_OUT true { Mcu.reset with ddrb := 0, portb := 255 }
        = (s1, some g) ∧
      (gpio_direction_t.GPIO_DIRECTION_OUT = .GPIO_DIRECTION_OUT →
        (load g.ddrx s1).testBit g.pin = true ∧ (load g.portx s1).testBit g.pin = false) ∧
      (gpio_direction_t.GPIO_DIRECTION_OUT = .GPIO_DIRECTION_IN_PULLUP →
        (load g.ddrx s1).testBit g.pin = false ∧ (load g.portx s1).testBit g.pin = true) ∧
      (gpio_direction_t.GPIO_DIRECTION_OUT = .GPIO_DIRECTION_IN →
        (load g.ddrx s1).testBit g.pin = false ∧ (load g.portx s1).testBit g.pin = false) :=
  gpio_new_programs_direction 8 .GPIO_DIRECTION_OUT { Mcu.reset with ddrb := 0, portb := 255 }
    (by decide)

/-- The direction and output bits of the pin after the two clearing statements of
`gpio_cleanup`, for a structure on one port. -/
theorem cleanup_bits (g : gpio_t) (hport : on_one_port g) (s : Mcu) :
    (load g.ddrx (clear_bit g.portx g.pin (clear_bit g.ddrx g.pin s))).testBit g.pin = false ∧
    (load g.portx (clear_bit g.portx g.pin (clear_bit g.ddrx g.pin s))).testBit g.pin = false := by
  rcases hport with ⟨hd, hp, -⟩ | ⟨hd, hp, -⟩ | ⟨hd, hp, -⟩ <;>
    simp only [hd, hp, clear_bit, store, load] <;>
    exact ⟨testBit_clear_same _ _, testBit_clear_same _ _⟩

/-- The registry bit of `id` after `release_pin(id)`: cleared for every id, by the mask
when `id < 16` and by the widening of the 16-bit complement otherwise. -/
theorem release_pin_testBit (id : Nat) (s : Mcu) :
    (release_pin id s).pin_registry.testBit id = false := by
  simp only [release_pin]
  rw [testBit_mod_u32]
  by_cases h16 : id < 16
  · simp [testBit_not_uint, testBit_shl_1U, h16]
  · simp [testBit_not_uint, testBit_shl_1U, h16]

/-- C6: for every structure `g` returned by a successful `gpio_new(p, d)` and every state
`t` in which `gpio_del` is later called on the caller's pointer to it (whatever writes
and toggles happened in between), `gpio_del` leaves the pin's direction-register bit and
output-register bit cleared, leaves the registry bit of the original pin id `p` cleared,
and sets the caller's pointer to null. -/
theorem gpio_del_resets_pin (p : Nat) (d : gpio_direction_t) (ok : Bool) (s s1 : Mcu)
    (g : gpio_t) (hnew : gpio_new p d ok s = (s1, some g)) (t : Mcu) :
    (load g.ddrx (gpio_del (some (some g)) t).1).testBit g.pin = false ∧
    (load g.portx (gpio_del (some (some g)) t).1).testBit g.pin = false ∧
    g.id = p ∧
    (gpio_del (some (some g)) t).1.pin_registry.testBit p = false ∧
    (gpio_del (some (some g)) t).2 = some none := by
  obtain ⟨-, -, h20, hg, -⟩ := gpio_new_some hnew
  obtain ⟨hport, -, hid⟩ := gpio_map_valid p h20
  rw [← hg] at hport hid
  obtain ⟨hddr, hprt⟩ := cleanup_bits g hport t
  refine ⟨?_, ?_, hid, ?_, rfl⟩
  · simpa only [gpio_del, gpio_cleanup, load_release_pin] using hddr
  · simpa only [gpio_del, gpio_cleanup, load_release_pin] using hprt
  · simp only [gpio_del, gpio_cleanup, hid]
    exact release_pin_testBit p _

/-- Witness of C6: pin 8 acquired as output on the reset state and deleted in a state
with every port B bit and every registry bit set. -/
theorem gpio_del_resets_pin_witness :
    (load (gpio_map 8).ddrx (gpio_del (some (some (gpio_map 8)))
      { Mcu.reset with ddrb := 255, portb := 255, pin_registry := 2 ^ 32 - 1 }).1).testBit
        (gpio_map 8).pin = false ∧
    (load (gpio_map 8).portx (gpio_del (some (some (gpio_map 8)))
      { Mcu.reset with ddrb := 255, portb := 255, pin_registry := 2 ^ 32 - 1 }).1).testBit
        (gpio_map 8).pin = false ∧
    (gpio_map 8).id = 8 ∧
    (gpio_del (some (some (gpio_map 8)))
      { Mcu.reset with ddrb := 255, portb := 255, pin_registry := 2 ^ 32 - 1 }).1.pin_registry.testBit
        8 = false ∧
    (gpio_del (some (some (gpio_map 8)))
      { Mcu.reset with ddrb := 255, portb := 255, pin_registry := 2 ^ 32 - 1 }).2 = some none :=
  gpio_del_resets_pin 8 .GPIO_DIRECTION_OUT true Mcu.reset
    (gpio_new 8 .GPIO_DIRECTION_OUT true Mcu.reset).1 (gpio_map 8) (by decide)
    { Mcu.reset with ddrb := 255, portb := 255, pin_registry := 2 ^ 32 - 1 }

/-- C7: for every structure `g` returned by a successful `gpio_new`, every state `t` in
which the pin's direction-register bit is 1 and every boolean `v`, after
`gpio_write(g, v)` the pin's output-register bit equals `v`; the three direction
registers, the three input registers and the registry are unchanged. -/
theorem gpio_write_output (p : Nat) (d : gpio_direction_t) (ok : Bool) (s s1 : Mcu)
    (g : gpio_t) (hnew : gpio_new p d ok s = (s1, some g)) (t : Mcu) (v : Bool)
    (hout : (load g.ddrx t).testBit g.pin = true) :
    (load g.portx (gpio_write (some g) v t)).testBit g.pin = v ∧
    (gpio_write (some g) v t).ddrb = t.ddrb ∧
    (gpio_write (some g) v t).ddrc = t.ddrc ∧
    (gpio_write (some g) v t).ddrd = t.ddrd ∧
    (gpio_write (some g) v t).pinb = t.pinb ∧
    (gpio_write (some g) v t).pinc = t.pinc ∧
    (gpio_write (some g) v t).pind = t.pind ∧
    (gpio_write (some g) v t).pin_registry = t.pin_registry := by
  obtain ⟨-, -, h20, hg, -⟩ := gpio_new_some hnew
  obtain ⟨hport, hpin, -⟩ := gpio_map_valid p h20
  rw [← hg] at hport hpin
  have h16 : g.pin < 16 := by omega
  have hio : gpio_is_output g t = true := by
    rw [gpio_is_output_eq]
    simp [h16, hout]
  cases v <;>
    rcases hport with ⟨hd, hp, -⟩ | ⟨hd, hp, -⟩ | ⟨hd, hp, -⟩ <;>
    simp only [gpio_write, hio, hp, set_bit, clear_bit, store, load] <;>
    first
    | exact ⟨testBit_set_same _ _ hpin, rfl, rfl, rfl, rfl, rfl, rfl, rfl⟩
    | exact ⟨testBit_clear_same _ _, rfl, rfl, rfl, rfl, rfl, rfl, rfl⟩

/-- Witness of C7: the structure of pin 8, acquired as output, written high. -/
theorem gpio_write_output_witness :
    (load (gpio_map 8).portx (gpio_write (some (gpio_map 8)) true
      (gpio_new 8 .GPIO_DIRECTION_OUT true Mcu.reset).1)).testBit (gpio_map 8).pin = true :=
  (gpio_write_output 8 .GPIO_DIRECTION_OUT true Mcu.reset
    (gpio_new 8 .GPIO_DIRECTION_OUT true Mcu.reset).1 (gpio_map 8) (by decide)
    (gpio_new 8 .GPIO_DIRECTION_OUT true Mcu.reset).1 true (by decide)).1

/-- C8: for every structure whose direction-register bit is 0 in the current state,
`gpio_write` with either value and `gpio_toggle` return the state unchanged: all nine
registers and the registry are as before, so the pull-up bit of a pull-up input is not
altered. -/
theorem gpio_write_toggle_input_noop (g : gpio_t) (t : Mcu) (v : Bool)
    (hin : (load g.ddrx t).testBit g.pin = false) :
    gpio_write (some g) v t = t ∧ gpio_toggle (some g) t = t := by
  have hio : gpio_is_output g t = false := by
    rw [gpio_is_output_eq]
    simp [hin]
  simp [gpio_write, gpio_toggle, hio]

/-- Witness of C8: pin 13 acquired as pull-up input on the reset state; a write of
`false` and a toggle leave the state, with the pull-up bit set, as it is. -/
theorem gpio_write_toggle_input_noop_witness :
    gpio_write (some (gpio_map 13)) false
        (gpio_new 13 .GPIO_DIRECTION_IN_PULLUP true Mcu.reset).1
      = (gpio_new 13 .GPIO_DIRECTION_IN_PULLUP true Mcu.reset).1 ∧
    gpio_toggle (some (gpio_map 13)) (gpio_new 13 .GPIO_DIRECTION_IN_PULLUP true Mcu.reset).1
      = (gpio_new 13 .GPIO_DIRECTION_IN_PULLUP true Mcu.reset).1 :=
  gpio_write_toggle_input_noop (gpio_map 13)
    (gpio_new 13 .GPIO_DIRECTION_IN_PULLUP true Mcu.reset).1 false (by decide)

/-- C9: for every structure `g` returned by a successful `gpio_new` (any direction) and
every state `t`, `gpio_read(g)` returns true exactly when bit `g.pin` of the input
register `g.pinx` is 1, that register is the `PINx` register of the pin's port, and the
state after the call is `t`. -/
theorem gpio_read_input_bit (p : Nat) (d : gpio_direction_t) (ok : Bool) (s s1 : Mcu)
    (g : gpio_t) (hnew : gpio_new p d ok s = (s1, some g)) (t : Mcu) :
    (gpio_read (some g) t).2 = (load g.pinx t).testBit g.pin ∧
    (gpio_read (some g) t).1 = t ∧
    (g.pinx = .PINB ∨ g.pinx = .PINC ∨ g.pinx = .PIND) := by
  obtain ⟨-, -, h20, hg, -⟩ := gpio_new_some hnew
  obtain ⟨hport, hpin, -⟩ := gpio_map_valid p h20
  rw [← hg] at hport hpin
  have h16 : g.pin < 16 := by omega
  have hz := and_shl_1U_eq_zero (load g.pinx t) g.pin
  refine ⟨?_, rfl, ?_⟩
  · simp only [gpio_read]
    cases hb : (load g.pinx t).testBit g.pin
    · have h0 : load g.pinx t &&& shl_1U g.pin = 0 := hz.mpr (by simp [hb])
      simp [h0]
    · have h1 : ¬ (load g.pinx t &&& shl_1U g.pin = 0) := fun h0 => hz.mp h0 ⟨h16, hb⟩
      simp [h1]
  · rcases hport with ⟨-, -, h⟩ | ⟨-, -, h⟩ | ⟨-, -, h⟩
    · exact Or.inl h
    · exact Or.inr (Or.inl h)
    · exact Or.inr (Or.inr h)

/-- Witness of C9: the button pin 13 of `main.c`, read while bit 5 of `PINB` is high. -/
theorem gpio_read_input_bit_witness :
    (gpio_read (some (gpio_map 13)) { Mcu.reset with pinb := 32 }).2
      = (load (gpio_map 13).pinx { Mcu.reset with pinb := 32 }).testBit (gpio_map 13).pin ∧
    (gpio_read (some (gpio_map 13)) { Mcu.reset with pinb := 32 }).1
      = { Mcu.reset with pinb := 32 } ∧
    ((gpio_map 13).pinx = .PINB ∨ (gpio_map 13).pinx = .PINC ∨ (gpio_map 13).pinx = .PIND) :=
  gpio_read_input_bit 13 .GPIO_DIRECTION_IN_PULLUP true Mcu.reset
    (gpio_new 13 .GPIO_DIRECTION_IN_PULLUP true Mcu.reset).1 (gpio_map 13) (by decide)
    { Mcu.reset with pinb := 32 }

/-! ## Null pointers (claim C10) -/

/-- C10: in every state, `gpio_read(NULL)` returns false, `gpio_write(NULL, v)` and
`gpio_toggle(NULL)` return the state unchanged, and `gpio_del` on a null double pointer
or on a pointer to a null pointer returns the state and the caller's pointer unchanged. -/
theorem null_pointer_noop (t : Mcu) (v : Bool) :
    gpio_read none t = (t, false) ∧
    gpio_write none v t = t ∧
    gpio_toggle none t = t ∧
    gpio_del none t = (t, none) ∧
    gpio_del (some none) t = (t, some none) :=
  ⟨rfl, rfl, rfl, rfl, rfl⟩

/-! ## Hardware echo and toggle (claims C11, C12, C17) -/

theorem testBit_echo_levels (ddr port pin j : Nat) :
    (echo_levels ddr port pin).testBit j =
      (decide (j < 8) && ((ddr.testBit j && port.testBit j) ||
        ((decide (j < 8) ^^ ddr.testBit j) && pin.testBit j))) := by
  have h255 : (255 : Nat).testBit j = decide (j < 8) := Nat.testBit_two_pow_sub_one 8 j
  unfold echo_levels
  rw [testBit_mod_256, Nat.testBit_or, Nat.testBit_and, Nat.testBit_and, Nat.testBit_xor, h255]

/-- The value of `gpio_read` in terms of the input-register bit. -/
theorem gpio_read_eq (g : gpio_t) (t : Mcu) :
    (gpio_read (some g) t).2 = (decide (g.pin < 16) && (load g.pinx t).testBit g.pin) := by
  have h := gpio_is_output_eq { g with ddrx := g.pinx } t
  simpa only [gpio_read, gpio_is_output] using h

/-- The output bit after `gpio_write` on a pin whose direction bit is set; the direction
register keeps its value. -/
theorem gpio_write_bits (g : gpio_t) (hport : on_one_port g) (hpin : g.pin < 8) (t : Mcu)
    (v : Bool) (hout : (load g.ddrx t).testBit g.pin = true) :
    (load g.portx (gpio_write (some g) v t)).testBit g.pin = v ∧
    load g.ddrx (gpio_write (some g) v t) = load g.ddrx t := by
  have h16 : g.pin < 16 := by omega
  have hio : gpio_is_output g t = true := by
    rw [gpio_is_output_eq]
    simp [h16, hout]
  cases v <;>
    rcases hport with ⟨hd, hp, -⟩ | ⟨hd, hp, -⟩ | ⟨hd, hp, -⟩ <;>
    simp only [gpio_write, hio, hd, hp, set_bit, clear_bit, store, load] <;>
    first
    | exact ⟨testBit_set_same _ _ hpin, rfl⟩
    | exact ⟨testBit_clear_same _ _, rfl⟩

/-- After the hardware has settled, `gpio_read` on a pin whose direction bit is set
returns the pin's output-register bit. -/
theorem gpio_read_hw_echo (g : gpio_t) (hport : on_one_port g) (hpin : g.pin < 8) (u : Mcu)
    (hout : (load g.ddrx u).testBit g.pin = true) :
    (gpio_read (some g) (hw_echo u)).2 = (load g.portx u).testBit g.pin := by
  have h16 : g.pin < 16 := by omega
  rw [gpio_read_eq]
  rcases hport with ⟨hd, hp, hi⟩ | ⟨hd, hp, hi⟩ | ⟨hd, hp, hi⟩ <;>
    simp only [hd, hp, hi, load, hw_echo] at hout ⊢ <;>
    simp [testBit_echo_levels, hout, hpin, h16]

/-- The round trip in a state whose direction bit is set: for every structure `g`
returned by `gpio_new(p, GPIO_DIRECTION_OUT)`, every state `t` in which the pin's
direction bit is (still) 1 and every boolean `v`, `gpio_write(g, v)` followed by
`gpio_read(g)` returns `v`, the hardware having echoed the driven level of the output
pin on its input-register bit between the two calls. -/
theorem gpio_write_read_round_trip (p : Nat) (ok : Bool) (s s1 : Mcu) (g : gpio_t)
    (hnew : gpio_new p .GPIO_DIRECTION_OUT ok s = (s1, some g)) (t : Mcu) (v : Bool)
    (hout : (load g.ddrx t).testBit g.pin = true) :
    (gpio_read (some g) (hw_echo (gpio_write (some g) v t))).2 = v := by
  obtain ⟨-, -, h20, hg, -⟩ := gpio_new_some hnew
  obtain ⟨hport, hpin, -⟩ := gpio_map_valid p h20
  rw [← hg] at hport hpin
  obtain ⟨hbit, hddr⟩ := gpio_write_bits g hport hpin t v hout
  rw [gpio_read_hw_echo g hport hpin _ (by rw [hddr]; exact hout)]
  exact hbit

/-- The round trip on the LED pin 8 of `main.c`, acquired as output on the reset state,
written high and read back. -/
theorem gpio_write_read_round_trip_witness :
    (gpio_read (some (gpio_map 8)) (hw_echo (gpio_write (some (gpio_map 8)) true
      (gpio_new 8 .GPIO_DIRECTION_OUT true Mcu.reset).1))).2 = true :=
  gpio_write_read_round_trip 8 true Mcu.reset
    (gpio_new 8 .GPIO_DIRECTION_OUT true Mcu.reset).1 (gpio_map 8) (by decide)
    (gpio_new 8 .GPIO_DIRECTION_OUT true Mcu.reset).1 true (by decide)

/-- Bit `n` of the output register after a store of `pin | (1U << n)` to `PINx`. -/
theorem testBit_flip_same (port pin n : Nat) (hn : n < 8) :
    (pin_store_flip port (pin ||| shl_1U n)).testBit n = !port.testBit n := by
  have h16 : n < 16 := by omega
  unfold pin_store_flip
  rw [testBit_mod_256, Nat.testBit_xor, testBit_mod_256, Nat.testBit_or, testBit_shl_1U]
  simp [hn, h16]

/-- One `gpio_toggle` on a pin whose direction bit is set inverts the pin's
output-register bit and keeps the direction register. -/
theorem gpio_toggle_bits (g : gpio_t) (hport : on_one_port g) (hpin : g.pin < 8) (t : Mcu)
    (hout : (load g.ddrx t).testBit g.pin = true) :
    (load g.portx (gpio_toggle (some g) t)).testBit g.pin = !(load g.portx t).testBit g.pin ∧
    load g.ddrx (gpio_toggle (some g) t) = load g.ddrx t := by
  have h16 : g.pin < 16 := by omega
  have hio : gpio_is_output g t = true := by
    rw [gpio_is_output_eq]
    simp [h16, hout]
  rcases hport with ⟨hd, hp, hi⟩ | ⟨hd, hp, hi⟩ | ⟨hd, hp, hi⟩ <;>
    simp only [gpio_toggle, hio, hd, hp, hi, set_bit, store, load] <;>
    exact ⟨testBit_flip_same _ _ _ hpin, rfl⟩

/-- The hardware echo changes neither the direction nor the output register. -/
theorem load_hw_echo (g : gpio_t) (hport : on_one_port g) (u : Mcu) :
    load g.ddrx (hw_echo u) = load g.ddrx u ∧ load g.portx (hw_echo u) = load g.portx u := by
  rcases hport with ⟨hd, hp, -⟩ | ⟨hd, hp, -⟩ | ⟨hd, hp, -⟩ <;>
    rw [hd, hp] <;> exact ⟨rfl, rfl⟩

/-- The toggle pair in a state whose direction bit is set: for every structure `g`
returned by `gpio_new(p, GPIO_DIRECTION_OUT)` and every state `t` in which the pin's
direction bit is (still) 1, one `gpio_toggle(g)` inverts the pin's output-register bit
and two consecutive calls restore it, a store to `PINx` flipping the output-register
bits of the 1 bits stored; the same holds when the hardware echoes the new level on
`PINx` between the two calls. -/
theorem gpio_toggle_twice_restores (p : Nat) (ok : Bool) (s s1 : Mcu) (g : gpio_t)
    (hnew : gpio_new p .GPIO_DIRECTION_OUT ok s = (s1, some g)) (t : Mcu)
    (hout : (load g.ddrx t).testBit g.pin = true) :
    (load g.portx (gpio_toggle (some g) t)).testBit g.pin = !(load g.portx t).testBit g.pin ∧
    (load g.portx (gpio_toggle (some g) (gpio_toggle (some g) t))).testBit g.pin
      = (load g.portx t).testBit g.pin ∧
    (load g.portx (gpio_toggle (some g) (hw_echo (gpio_toggle (some g) t)))).testBit g.pin
      = (load g.portx t).testBit g.pin := by
  obtain ⟨-, -, h20, hg, -⟩ := gpio_new_some hnew
  obtain ⟨hport, hpin, -⟩ := gpio_map_valid p h20
  rw [← hg] at hport hpin
  obtain ⟨h1, hd1⟩ := gpio_toggle_bits g hport hpin t hout
  have hout1 : (load g.ddrx (gpio_toggle (some g) t)).testBit g.pin = true := by
    rw [hd1]; exact hout
  obtain ⟨h2, -⟩ := gpio_toggle_bits g hport hpin _ hout1
  obtain ⟨he1, he2⟩ := load_hw_echo g hport (gpio_toggle (some g) t)
  have hout2 : (load g.ddrx (hw_echo (gpio_toggle (some g) t))).testBit g.pin = true := by
    rw [he1]; exact hout1
  obtain ⟨h3, -⟩ := gpio_toggle_bits g hport hpin _ hout2
  refine ⟨h1, ?_, ?_⟩
  · rw [h2, h1, Bool.not_not]
  · rw [h3, he2, h1, Bool.not_not]

/-- The toggle pair on the LED pin 8, acquired as output on the reset state (output
low), toggled once (high) and twice (low again). -/
theorem gpio_toggle_twice_restores_witness :
    (load (gpio_map 8).portx (gpio_toggle (some (gpio_map 8))
      (gpio_new 8 .GPIO_DIRECTION_OUT true Mcu.reset).1)).testBit (gpio_map 8).pin
      = !(load (gpio_map 8).portx
          (gpio_new 8 .GPIO_DIRECTION_OUT true Mcu.reset).1).testBit (gpio_map 8).pin ∧
    (load (gpio_map 8).portx (gpio_toggle (some (gpio_map 8)) (gpio_toggle (some (gpio_map 8))
      (gpio_new 8 .GPIO_DIRECTION_OUT true Mcu.reset).1))).testBit (gpio_map 8).pin
      = (load (gpio_map 8).portx
          (gpio_new 8 .GPIO_DIRECTION_OUT true Mcu.reset).1).testBit (gpio_map 8).pin ∧
    (load (gpio_map 8).portx (gpio_toggle (some (gpio_map 8)) (hw_echo
      (gpio_toggle (some (gpio_map 8))
        (gpio_new 8 .GPIO_DIRECTION_OUT true Mcu.reset).1)))).testBit (gpio_map 8).pin
      = (load (gpio_map 8).portx
          (gpio_new 8 .GPIO_DIRECTION_OUT true Mcu.reset).1).testBit (gpio_map 8).pin :=
  gpio_toggle_twice_restores 8 true Mcu.reset
    (gpio_new 8 .GPIO_DIRECTION_OUT true Mcu.reset).1 (gpio_map 8) (by decide)
    (gpio_new 8 .GPIO_DIRECTION_OUT true Mcu.reset).1 (by decide)

/-- C11, evaluated at pin 16: from the reset state `gpio_new(16, GPIO_DIRECTION_OUT)`
returns a structure and sets the direction bit of the pin; `gpio_new(16,
GPIO_DIRECTION_IN)` then succeeds as well, because the 16-bit mask of `reserve_pin`
recorded nothing, and clears the direction bit. The caller still holds the structure
acquired as output, but `gpio_write(g, true)` on it is now a no-op and, the hardware
echo applied, the following `gpio_read(g)` returns false. -/
theorem round_trip_fails_for_pin16 :
    (gpio_new 16 .GPIO_DIRECTION_OUT true Mcu.reset).2 = some (gpio_map 16) ∧
    (load (gpio_map 16).ddrx
      (gpio_new 16 .GPIO_DIRECTION_OUT true Mcu.reset).1).testBit (gpio_map 16).pin = true ∧
    gpio_map 16 ∈ ((World.start Mcu.reset).run
      [.new 16 .GPIO_DIRECTION_OUT true, .new 16 .GPIO_DIRECTION_IN true]).live ∧
    (load (gpio_map 16).ddrx ((World.start Mcu.reset).run
      [.new 16 .GPIO_DIRECTION_OUT true, .new 16 .GPIO_DIRECTION_IN true]).mcu).testBit
        (gpio_map 16).pin = false ∧
    gpio_write (some (gpio_map 16)) true ((World.start Mcu.reset).run
      [.new 16 .GPIO_DIRECTION_OUT true, .new 16 .GPIO_DIRECTION_IN true]).mcu
      = ((World.start Mcu.reset).run
          [.new 16 .GPIO_DIRECTION_OUT true, .new 16 .GPIO_DIRECTION_IN true]).mcu ∧
    (gpio_read (some (gpio_map 16)) (hw_echo (gpio_write (some (gpio_map 16)) true
      ((World.start Mcu.reset).run
        [.new 16 .GPIO_DIRECTION_OUT true, .new 16 .GPIO_DIRECTION_IN true]).mcu))).2
      = false := by
  decide

/-- C12, evaluated at pin 16: in the state after `gpio_new(16, GPIO_DIRECTION_OUT)` and
`gpio_new(16, GPIO_DIRECTION_IN)` from the reset state, where the caller still holds the
structure acquired as output, `gpio_toggle(g)` is a no-op: the output-register bit of
the pin is not inverted by one call. -/
theorem toggle_fails_for_pin16 :
    (gpio_new 16 .GPIO_DIRECTION_OUT true Mcu.reset).2 = some (gpio_map 16) ∧
    gpio_map 16 ∈ ((World.start Mcu.reset).run
      [.new 16 .GPIO_DIRECTION_OUT true, .new 16 .GPIO_DIRECTION_IN true]).live ∧
    gpio_toggle (some (gpio_map 16)) ((World.start Mcu.reset).run
      [.new 16 .GPIO_DIRECTION_OUT true, .new 16 .GPIO_DIRECTION_IN true]).mcu
      = ((World.start Mcu.reset).run
          [.new 16 .GPIO_DIRECTION_OUT true, .new 16 .GPIO_DIRECTION_IN true]).mcu ∧
    (load (gpio_map 16).portx (gpio_toggle (some (gpio_map 16)) ((World.start Mcu.reset).run
      [.new 16 .GPIO_DIRECTION_OUT true, .new 16 .GPIO_DIRECTION_IN true]).mcu)).testBit
        (gpio_map 16).pin
      = (load (gpio_map 16).portx ((World.start Mcu.reset).run
          [.new 16 .GPIO_DIRECTION_OUT true, .new 16 .GPIO_DIRECTION_IN true]).mcu).testBit
            (gpio_map 16).pin := by
  decide

/-- C17, evaluated on port B with the pins 8 and 9 acquired as outputs, pin 9 written
high and echoed on `PINB` (`DDRB = 3`, `PORTB = 2`, `PINB = 2`): `gpio_toggle` on pin 8
stores `PINB | (1U << 0) = 3` to `PINB`, not the single-bit mask 1, and the store
flips the output bit of pin 9 as well (`PORTB` becomes 1). -/
theorem gpio_toggle_stores_other_bits :
    hw_echo (gpio_write (some (gpio_map 9)) true
      (gpio_new 9 .GPIO_DIRECTION_OUT true
        (gpio_new 8 .GPIO_DIRECTION_OUT true Mcu.reset).1).1)
      = { Mcu.reset with ddrb := 3, portb := 2, pinb := 2, pin_registry := 768 } ∧
    (load (gpio_map 8).pinx
        { Mcu.reset with ddrb := 3, portb := 2, pinb := 2, pin_registry := 768 }
      ||| shl_1U (gpio_map 8).pin) = 3 ∧
    shl_1U (gpio_map 8).pin = 1 ∧
    gpio_toggle (some (gpio_map 8))
        { Mcu.reset with ddrb := 3, portb := 2, pinb := 2, pin_registry := 768 }
      = store .PINB 3 { Mcu.reset with ddrb := 3, portb := 2, pinb := 2, pin_registry := 768 } ∧
    (gpio_toggle (some (gpio_map 8))
        { Mcu.reset with ddrb := 3, portb := 2, pinb := 2, pin_registry := 768 }).portb = 1 ∧
    (load (gpio_map 9).portx
        { Mcu.reset with ddrb := 3, portb := 2, pinb := 2, pin_registry := 768 }).testBit
          (gpio_map 9).pin = true ∧
    (load (gpio_map 9).portx (gpio_toggle (some (gpio_map 8))
        { Mcu.reset with ddrb := 3, portb := 2, pinb := 2, pin_registry := 768 })).testBit
          (gpio_map 9).pin = false := by
  decide

/-! ## Registry operations (claims C13, C14, C20) -/

/-- For an id below 16 or from 20 on, `is_pin_free` is true exactly when the id is below
20 and its registry bit is 0. -/
theorem is_pin_free_iff_of_lt_16 (id : Nat) (s : Mcu) (hid : id < 16 ∨ 20 ≤ id) :
    is_pin_free id s = true ↔ (id < 20 ∧ s.pin_registry.testBit id = false) := by
  rw [is_pin_free_eq]
  rcases hid with h | h
  · have h20 : id < 20 := by omega
    simp [h, h20]
  · have h20 : ¬ id < 20 := by omega
    simp [h20]

theorem testBit_of_lt_two_pow_16 (r j : Nat) (hr : r < 2 ^ 16) (hj : 16 ≤ j) :
    r.testBit j = false :=
  Nat.testBit_lt_two_pow (Nat.lt_of_lt_of_le hr (Nat.pow_le_pow_right (by decide) hj))

/-- For a pin below 16 every shift count of the registry operations during `gpio_new`
is below the width of `unsigned int`, and the mask is the single bit of the id. -/
theorem gpio_new_shifts_of_lt_16 (pin : Nat) (hp : pin < 16) (ok : Bool) (s : Mcu) :
    ∀ n ∈ gpio_new_shifts pin ok s, n < UINT_BITS ∧ shl_1U n = 2 ^ n := by
  intro n hn
  have hpin : n = pin := by
    unfold gpio_new_shifts is_pin_free_shifts at hn
    simp only [List.mem_append] at hn
    rcases hn with h | h
    · split at h <;> simp at h
      exact h
    · split at h
      · simp at h
      · split at h <;> simp at h
        exact h
  subst hpin
  refine ⟨hp, ?_⟩
  unfold shl_1U UINT_BITS
  rw [Nat.one_shiftLeft]
  exact Nat.mod_eq_of_lt (Nat.pow_lt_pow_right (by decide) hp)

/-- C20, evaluated at pin 16: `gpio_new(16, ..)` on the reset state evaluates `1U << 16`
twice (in `is_pin_free` and in `reserve_pin`) and `gpio_del` of the structure once more
(in `release_pin`); the shift count 16 is not below the 16 bits of `unsigned int`, the
mask is 0, and the ids 16 to 19 all get the same mask. -/
theorem gpio_new_pin16_shift_count :
    gpio_new_shifts 16 true Mcu.reset = [16, 16] ∧
    gpio_del_shifts (some (gpio_new 16 .GPIO_DIRECTION_OUT true Mcu.reset).2) = [16] ∧
    ¬ (16 < UINT_BITS) ∧
    shl_1U 16 = 0 ∧ shl_1U 17 = 0 ∧ shl_1U 18 = 0 ∧ shl_1U 19 = 0 := by
  decide

/-! ## Programs of a caller (claims C15, C16, C18, C19) -/

/-- A `gpio_new` that returns the null pointer returns the state it was given. -/
theorem gpio_new_eq_of_none (p : Nat) (d : gpio_direction_t) (ok : Bool) (s : Mcu)
    (h : (gpio_new p d ok s).2 = none) : gpio_new p d ok s = (s, none) := by
  unfold gpio_new at h ⊢
  cases hf : is_pin_free p s <;> cases ok <;> simp [hf] at h ⊢

theorem gpio_write_pin_registry (g : Option gpio_t) (v : Bool) (t : Mcu) :
    (gpio_write g v t).pin_registry = t.pin_registry := by
  cases g with
  | none => rfl
  | some g =>
    simp only [gpio_write]
    split
    · rfl
    · split
      · exact set_bit_pin_registry _ _ _
      · exact clear_bit_pin_registry _ _ _

theorem gpio_toggle_pin_registry (g : Option gpio_t) (t : Mcu) :
    (gpio_toggle g t).pin_registry = t.pin_registry := by
  cases g with
  | none => rfl
  | some g =>
    simp only [gpio_toggle]
    split
    · rfl
    · exact set_bit_pin_registry _ _ _

theorem gpio_cleanup_pin_registry (g : gpio_t) (t : Mcu) :
    (gpio_cleanup g t).pin_registry
      = (t.pin_registry &&& not_uint (shl_1U g.id)) % 2 ^ 32 := by
  simp [gpio_cleanup, release_pin, clear_bit_pin_registry]

theorem countP_erase_of_mem (P : gpio_t → Bool) (a : gpio_t) (l : List gpio_t) (h : a ∈ l) :
    (l.erase a).countP P + (if P a then 1 else 0) = l.countP P := by
  induction l with
  | nil => cases h
  | cons b l ih =>
    by_cases hba : b = a
    · subst hba
      rw [List.erase_cons_head, List.countP_cons]
    · have hmem : a ∈ l := by
        rcases List.mem_cons.mp h with h1 | h1
        · exact absurd h1.symm hba
        · exact h1
      have hbeq : (b == a) = false := by simpa using hba
      rw [List.erase_cons, hbeq]
      simp only [Bool.false_eq_true, if_false]
      rw [List.countP_cons, List.countP_cons]
      have := ih hmem
      omega

/-- A property of the start state that every step preserves holds after every program. -/
theorem World.run_induction (P : World → Prop) (hstep : ∀ w c, P w → P (w.step c))
    (cs : List Call) : ∀ w, P w → P (w.run cs) := by
  induction cs with
  | nil => intro w hw; exact hw
  | cons c cs ih =>
    intro w hw
    exact ih (w.step c) (hstep w c hw)

/-- One step keeps the bits 16..31 of the registry clear. -/
theorem step_pin_registry_lt (w : World) (c : Call) (hw : w.mcu.pin_registry < 2 ^ 16) :
    (w.step c).mcu.pin_registry < 2 ^ 16 := by
  cases c with
  | new pin direction malloc_ok =>
    simp only [World.step]
    cases hres : gpio_new pin direction malloc_ok w.mcu with
    | mk s1 o =>
      cases o with
      | none =>
        have h := gpio_new_eq_of_none pin direction malloc_ok w.mcu (by rw [hres])
        rw [hres] at h
        simp only [Prod.mk.injEq] at h
        simp only [h.1]
        exact hw
      | some g =>
        obtain ⟨-, -, -, -, hs1⟩ := gpio_new_some hres
        simp only [hs1, gpio_init_pin_registry]
        have hm : shl_1U pin < 2 ^ 16 := Nat.mod_lt _ (by decide)
        exact Nat.lt_of_le_of_lt (Nat.mod_le _ _) (Nat.or_lt_two_pow hw hm)
  | del g =>
    simp only [World.step]
    split
    · simp only [gpio_del, gpio_cleanup_pin_registry]
      exact Nat.lt_of_le_of_lt (Nat.mod_le _ _) (Nat.lt_of_le_of_lt Nat.and_le_left hw)
    · exact hw
  | read g =>
    simp only [World.step]
    split
    · exact hw
    · exact hw
  | write g value =>
    simp only [World.step]
    split
    · simp only [gpio_write_pin_registry]
      exact hw
    · exact hw
  | toggle g =>
    simp only [World.step]
    split
    · simp only [gpio_toggle_pin_registry]
      exact hw
    · exact hw
  | levels b c d => exact hw

/-- The registry of a running program never has one of the bits 16..31 set. -/
theorem run_pin_registry_lt (s : Mcu) (cs : List Call) :
    ((World.start s).run cs).mcu.pin_registry < 2 ^ 16 := by
  have h0 : (World.start s).mcu.pin_registry < 2 ^ 16 := by
    show (0 : Nat) < 2 ^ 16
    decide
  exact World.run_induction (fun w => w.mcu.pin_registry < 2 ^ 16)
    step_pin_registry_lt cs _ h0

/-- One step keeps the count of the structures held for an id below 16 equal to the
registry bit of the id. -/
theorem step_live_count (w : World) (c : Call)
    (hw : ∀ id, id < 16 → live_count w id = if w.mcu.pin_registry.testBit id then 1 else 0) :
    ∀ id, id < 16 → live_count (w.step c) id
      = if (w.step c).mcu.pin_registry.testBit id then 1 else 0 := by
  intro id hid
  have h32 : id < 32 := by omega
  have hwid := hw id hid
  cases c with
  | new pin direction malloc_ok =>
    cases hres : gpio_new pin direction malloc_ok w.mcu with
    | mk s1 o =>
      cases o with
      | none =>
        have h := gpio_new_eq_of_none pin direction malloc_ok w.mcu (by rw [hres])
        rw [hres] at h
        simp only [Prod.mk.injEq] at h
        have hstep : w.step (.new pin direction malloc_ok) = w := by
          simp only [World.step, hres, h.1]
        rw [hstep]
        exact hwid
      | some g =>
        obtain ⟨hfree, -, h20, hg, hs1⟩ := gpio_new_some hres
        have hgid : g.id = pin := by rw [hg]; exact (gpio_map_valid pin h20).2.2
        have hstep : w.step (.new pin direction malloc_ok)
            = { mcu := s1, live := g :: w.live } := by
          simp only [World.step, hres]
        rw [hstep]
        simp only [live_count, List.countP_cons, hgid, hs1, gpio_init_pin_registry,
          testBit_mod_u32, Nat.testBit_or, testBit_shl_1U]
        simp only [live_count] at hwid
        rw [hwid]
        by_cases hp : pin = id
        · subst hp
          rw [is_pin_free_eq] at hfree
          simp [hid, h20] at hfree
          simp [hid, h32, hfree]
        · simp [hid, h32, hp]
  | del g =>
    simp only [World.step]
    split
    · rename_i hmem
      have herase := countP_erase_of_mem (fun x => decide (x.id = id)) g w.live hmem
      simp only [live_count, gpio_del, gpio_cleanup_pin_registry, testBit_mod_u32,
        Nat.testBit_and, testBit_not_uint, testBit_shl_1U]
      simp only [live_count] at hwid
      by_cases hg : g.id = id
      · have hpos : 0 < w.live.countP (fun x => decide (x.id = id)) :=
          List.countP_pos_iff.mpr ⟨g, hmem, by simpa using hg⟩
        have hbit : w.mcu.pin_registry.testBit id = true := by
          cases hb : w.mcu.pin_registry.testBit id
          · rw [hb] at hwid
            simp at hwid
            have hz : w.live.countP (fun x => decide (x.id = id)) = 0 :=
              List.countP_eq_zero.mpr (by simpa using hwid)
            omega
          · rfl
        rw [hbit] at hwid
        simp only [hg, decide_True, if_true] at herase
        simp only [if_true] at hwid
        have hz : (w.live.erase g).countP (fun x => decide (x.id = id)) = 0 := by omega
        rw [hz]
        simp [hid, h32, hg]
      · have hsame : (w.live.erase g).countP (fun x => decide (x.id = id))
            = w.live.countP (fun x => decide (x.id = id)) := by
          simp only [hg, decide_False, Bool.false_eq_true, if_false] at herase
          omega
        rw [hsame, hwid]
        simp [hid, h32, hg]
    · exact hwid
  | read g =>
    simp only [World.step]
    split
    · exact hwid
    · exact hwid
  | write g value =>
    simp only [World.step]
    split
    · simp only [live_count, gpio_write_pin_registry]
      exact hwid
    · exact hwid
  | toggle g =>
    simp only [World.step]
    split
    · simp only [live_count, gpio_toggle_pin_registry]
      exact hwid
    · exact hwid
  | levels b c d => exact hwid

/-- The ownership invariant for the ids below 16: after every program from the start
state the registry bit of the id is set exactly when the caller holds one structure for
it, and the caller never holds two. -/
theorem registry_ownership_of_lt_16 (s : Mcu) (cs : List Call) (id : Nat) (hid : id < 16) :
    (((World.start s).run cs).mcu.pin_registry.testBit id = true ↔
      live_count ((World.start s).run cs) id = 1) ∧
    live_count ((World.start s).run cs) id ≤ 1 := by
  have h0 : ∀ i, i < 16 → live_count (World.start s) i
      = if (World.start s).mcu.pin_registry.testBit i then 1 else 0 := by
    intro i _
    simp [live_count, World.start]
  have h := World.run_induction
    (fun w => ∀ i, i < 16 → live_count w i = if w.mcu.pin_registry.testBit i then 1 else 0)
    step_live_count cs _ h0 id hid
  rw [h]
  cases ((World.start s).run cs).mcu.pin_registry.testBit id <;> simp

/-- C15, evaluated at id 16: after the program `gpio_new(16, GPIO_DIRECTION_OUT)`,
`gpio_new(16, GPIO_DIRECTION_IN)` from the reset state the caller holds two structures
with id 16 and registry bit 16 is not set; after the first call alone the caller holds
one structure with id 16 and registry bit 16 is not set either. -/
theorem two_live_structures_for_pin16 :
    ((World.start Mcu.reset).run
      [.new 16 .GPIO_DIRECTION_OUT true, .new 16 .GPIO_DIRECTION_IN true]).live
        = [gpio_map 16, gpio_map 16] ∧
    live_count ((World.start Mcu.reset).run
      [.new 16 .GPIO_DIRECTION_OUT true, .new 16 .GPIO_DIRECTION_IN true]) 16 = 2 ∧
    ((World.start Mcu.reset).run
      [.new 16 .GPIO_DIRECTION_OUT true, .new 16 .GPIO_DIRECTION_IN true]).mcu.pin_registry.testBit
        16 = false ∧
    live_count ((World.start Mcu.reset).run [.new 16 .GPIO_DIRECTION_OUT true]) 16 = 1 ∧
    ((World.start Mcu.reset).run [.new 16 .GPIO_DIRECTION_OUT true]).mcu.pin_registry.testBit
        16 = false := by
  decide

/-- C16, as stated, fails: in the state after `gpio_new(8, GPIO_DIRECTION_OUT)` the
request for the reserved id 8, the request for the id 20 outside 0..19 and the request
for the free id 9 with a failing `malloc` all return the same result (the unchanged state
and the null pointer), so no function of the result names the three failure kinds. -/
theorem gpio_new_failure_kind_not_surfaced :
    ¬ ∃ kind : Mcu × Option gpio_t → spec_failure_kind,
      kind (gpio_new 8 .GPIO_DIRECTION_IN true
        (gpio_new 8 .GPIO_DIRECTION_OUT true Mcu.reset).1) = .PinUnavailable ∧
      kind (gpio_new 20 .GPIO_DIRECTION_IN true
        (gpio_new 8 .GPIO_DIRECTION_OUT true Mcu.reset).1) = .InvalidPin ∧
      kind (gpio_new 9 .GPIO_DIRECTION_IN false
        (gpio_new 8 .GPIO_DIRECTION_OUT true Mcu.reset).1) = .AllocationFailure := by
  rintro ⟨kind, h1, h2, -⟩
  have e : gpio_new 8 .GPIO_DIRECTION_IN true (gpio_new 8 .GPIO_DIRECTION_OUT true Mcu.reset).1
      = gpio_new 20 .GPIO_DIRECTION_IN true
          (gpio_new 8 .GPIO_DIRECTION_OUT true Mcu.reset).1 := by
    decide
  rw [e, h2] at h1
  cases h1

/-- C16, amended: `gpio_new` reports a failure by the null pointer and by nothing else.
It returns the null pointer exactly when `is_pin_free(pin)` is false (the id is recorded
as reserved or lies outside 0..19) or `malloc` fails, and in each of these cases the
whole result is the same pair of the unchanged state and the null pointer. -/
theorem gpio_new_null_iff (p : Nat) (d : gpio_direction_t) (ok : Bool) (s : Mcu) :
    ((gpio_new p d ok s).2 = none ↔ (is_pin_free p s = false ∨ ok = false)) ∧
    (gpio_new p d ok s = (s, none) ↔ (is_pin_free p s = false ∨ ok = false)) := by
  unfold gpio_new
  cases hf : is_pin_free p s <;> cases ok <;> simp

/-- C19: whenever `gpio_new` returns the null pointer, for whichever of the three
reasons, the state after the call (the registry and all nine registers) is the state
before the call. -/
theorem gpio_new_failure_atomic (p : Nat) (d : gpio_direction_t) (ok : Bool) (s : Mcu)
    (h : (gpio_new p d ok s).2 = none) : (gpio_new p d ok s).1 = s := by
  rw [gpio_new_eq_of_none p d ok s h]

/-- Witness of C19: in a state with pin 8 reserved and port B programmed, the failing
requests for the reserved id 8, for the id 200 and for the free id 9 with a failing
`malloc` leave the state as it is. -/
theorem gpio_new_failure_atomic_witness :
    (gpio_new 8 .GPIO_DIRECTION_IN_PULLUP true
      (gpio_new 8 .GPIO_DIRECTION_OUT true Mcu.reset).1).1
        = (gpio_new 8 .GPIO_DIRECTION_OUT true Mcu.reset).1 ∧
    (gpio_new 200 .GPIO_DIRECTION_OUT true
      (gpio_new 8 .GPIO_DIRECTION_OUT true Mcu.reset).1).1
        = (gpio_new 8 .GPIO_DIRECTION_OUT true Mcu.reset).1 ∧
    (gpio_new 9 .GPIO_DIRECTION_OUT false
      (gpio_new 8 .GPIO_DIRECTION_OUT true Mcu.reset).1).1
        = (gpio_new 8 .GPIO_DIRECTION_OUT true Mcu.reset).1 :=
  ⟨gpio_new_failure_atomic 8 .GPIO_DIRECTION_IN_PULLUP true _ (by decide),
   gpio_new_failure_atomic 200 .GPIO_DIRECTION_OUT true _ (by decide),
   gpio_new_failure_atomic 9 .GPIO_DIRECTION_OUT false _ (by decide)⟩

/-! ## Non-interference between pins (claim C18) -/

theorem testBit_set_ne (x n j : Nat) (hj : j < 8) (hne : ¬ j = n) :
    ((x ||| shl_1U n) % 256).testBit j = x.testBit j := by
  have hne2 : ¬ n = j := fun h => hne h.symm
  simp [testBit_mod_256, testBit_shl_1U, hj, hne2]

theorem testBit_clear_ne (x n j : Nat) (hj : j < 8) (hne : ¬ j = n) :
    ((x &&& not_uint (shl_1U n)) % 256).testBit j = x.testBit j := by
  have hne2 : ¬ n = j := fun h => hne h.symm
  have h16 : j < 16 := by omega
  simp [testBit_mod_256, testBit_not_uint, testBit_shl_1U, hj, h16, hne2]

/-- A `|=` on a direction or output register changes no bit but bit `n` of it. -/
theorem set_bit_frame (r0 : Reg) (n : Nat) (t : Mcu)
    (hplain : r0 ≠ .PINB ∧ r0 ≠ .PINC ∧ r0 ≠ .PIND) (r : Reg) (j : Nat) (hj : j < 8)
    (h : ¬ (j = n ∧ r = r0)) :
    (load r (set_bit r0 n t)).testBit j = (load r t).testBit j := by
  obtain ⟨hb, hc, hd⟩ := hplain
  by_cases hr : r = r0
  · have hne : ¬ j = n := fun hjn => h ⟨hjn, hr⟩
    subst hr
    cases r <;> first
      | exact absurd rfl hb
      | exact absurd rfl hc
      | exact absurd rfl hd
      | exact testBit_set_ne _ _ _ hj hne
  · cases r0 <;> cases r <;> first
      | exact absurd rfl hb
      | exact absurd rfl hc
      | exact absurd rfl hd
      | exact absurd rfl hr
      | rfl

/-- A `&= ~` on a direction or output register changes no bit but bit `n` of it. -/
theorem clear_bit_frame (r0 : Reg) (n : Nat) (t : Mcu)
    (hplain : r0 ≠ .PINB ∧ r0 ≠ .PINC ∧ r0 ≠ .PIND) (r : Reg) (j : Nat) (hj : j < 8)
    (h : ¬ (j = n ∧ r = r0)) :
    (load r (clear_bit r0 n t)).testBit j = (load r t).testBit j := by
  obtain ⟨hb, hc, hd⟩ := hplain
  by_cases hr : r = r0
  · have hne : ¬ j = n := fun hjn => h ⟨hjn, hr⟩
    subst hr
    cases r <;> first
      | exact absurd rfl hb
      | exact absurd rfl hc
      | exact absurd rfl hd
      | exact testBit_clear_ne _ _ _ hj hne
  · cases r0 <;> cases r <;> first
      | exact absurd rfl hb
      | exact absurd rfl hc
      | exact absurd rfl hd
      | exact absurd rfl hr
      | rfl

/-- The direction and output register pointers of a structure on one port are not
input registers. -/
theorem on_one_port_plain (g : gpio_t) (hport : on_one_port g) :
    (g.ddrx ≠ .PINB ∧ g.ddrx ≠ .PINC ∧ g.ddrx ≠ .PIND) ∧
    (g.portx ≠ .PINB ∧ g.portx ≠ .PINC ∧ g.portx ≠ .PIND) := by
  rcases hport with ⟨hd, hp, -⟩ | ⟨hd, hp, -⟩ | ⟨hd, hp, -⟩ <;>
    rw [hd, hp] <;> decide

/-- Two distinct valid ids never resolve to the same bit of a direction or output
register. -/
theorem gpio_map_distinct (p q : Nat) (hp : p < 20) (hq : q < 20) (hpq : p ≠ q) :
    ¬ ((gpio_map q).pin = (gpio_map p).pin ∧
        ((gpio_map q).ddrx = (gpio_map p).ddrx ∨ (gpio_map q).ddrx = (gpio_map p).portx)) ∧
    ¬ ((gpio_map q).pin = (gpio_map p).pin ∧
        ((gpio_map q).portx = (gpio_map p).ddrx ∨ (gpio_map q).portx = (gpio_map p).portx)) := by
  interval_cases p <;> interval_cases q <;> first | exact absurd rfl hpq | decide

theorem changes_at_most_gpio_new (p : Nat) (hp : p < 20) (d : gpio_direction_t) (ok : Bool)
    (t : Mcu) (hreg : t.pin_registry < 2 ^ 16) :
    changes_at_most (gpio_map p) p t (gpio_new p d ok t).1 := by
  obtain ⟨hport, -, -⟩ := gpio_map_valid p hp
  obtain ⟨hpd, hpp⟩ := on_one_port_plain (gpio_map p) hport
  cases hres : (gpio_new p d ok t).2 with
  | none =>
    rw [gpio_new_eq_of_none p d ok t hres]
    exact ⟨fun _ _ _ _ => rfl, fun _ _ => rfl⟩
  | some g =>
    have hpair : gpio_new p d ok t = ((gpio_new p d ok t).1, some g) := by
      rw [← hres]
    obtain ⟨-, -, -, -, hs1⟩ := gpio_new_some hpair
    rw [hs1]
    constructor
    · intro r j hj h
      have h1 : ¬ (j = (gpio_map p).pin ∧ r = (gpio_map p).ddrx) := fun hh => h ⟨hh.1, Or.inl hh.2⟩
      have h2 : ¬ (j = (gpio_map p).pin ∧ r = (gpio_map p).portx) := fun hh => h ⟨hh.1, Or.inr hh.2⟩
      cases d <;> simp only [gpio_init, load_reserve_pin]
      · rw [clear_bit_frame _ _ _ hpp r j hj h2, clear_bit_frame _ _ _ hpd r j hj h1]
      · rw [set_bit_frame _ _ _ hpp r j hj h2, clear_bit_frame _ _ _ hpd r j hj h1]
      · rw [clear_bit_frame _ _ _ hpp r j hj h2, set_bit_frame _ _ _ hpd r j hj h1]
    · intro j hj
      have hne : ¬ p = j := fun hh => hj hh.symm
      rw [gpio_init_pin_registry, testBit_mod_u32, Nat.testBit_or, testBit_shl_1U]
      by_cases h16 : j < 16
      · have h32 : j < 32 := by omega
        simp [h16, h32, hne]
      · have hz := testBit_of_lt_two_pow_16 t.pin_registry j hreg (by omega)
        simp [h16, hz]

theorem changes_at_most_gpio_write (p : Nat) (hp : p < 20) (v : Bool) (t : Mcu) :
    changes_at_most (gpio_map p) p t (gpio_write (some (gpio_map p)) v t) := by
  obtain ⟨hport, -, -⟩ := gpio_map_valid p hp
  obtain ⟨-, hpp⟩ := on_one_port_plain (gpio_map p) hport
  constructor
  · intro r j hj h
    have h2 : ¬ (j = (gpio_map p).pin ∧ r = (gpio_map p).portx) := fun hh => h ⟨hh.1, Or.inr hh.2⟩
    simp only [gpio_write]
    split
    · rfl
    · split
      · exact set_bit_frame _ _ _ hpp r j hj h2
      · exact clear_bit_frame _ _ _ hpp r j hj h2
  · intro j _
    rw [gpio_write_pin_registry]

theorem changes_at_most_gpio_del (p : Nat) (hp : p < 20) (t : Mcu)
    (hreg : t.pin_registry < 2 ^ 16) :
    changes_at_most (gpio_map p) p t (gpio_del (some (some (gpio_map p))) t).1 := by
  obtain ⟨hport, -, hid⟩ := gpio_map_valid p hp
  obtain ⟨hpd, hpp⟩ := on_one_port_plain (gpio_map p) hport
  constructor
  · intro r j hj h
    have h1 : ¬ (j = (gpio_map p).pin ∧ r = (gpio_map p).ddrx) := fun hh => h ⟨hh.1, Or.inl hh.2⟩
    have h2 : ¬ (j = (gpio_map p).pin ∧ r = (gpio_map p).portx) := fun hh => h ⟨hh.1, Or.inr hh.2⟩
    simp only [gpio_del, gpio_cleanup, load_release_pin]
    rw [clear_bit_frame _ _ _ hpp r j hj h2, clear_bit_frame _ _ _ hpd r j hj h1]
  · intro j hj
    have hne : ¬ p = j := fun hh => hj hh.symm
    simp only [gpio_del]
    rw [gpio_cleanup_pin_registry, hid, testBit_mod_u32, Nat.testBit_and, testBit_not_uint,
      testBit_shl_1U]
    by_cases h16 : j < 16
    · have h32 : j < 32 := by omega
      simp [h16, h32, hne]
    · have hz := testBit_of_lt_two_pow_16 t.pin_registry j hreg (by omega)
      simp [h16, hz]

theorem keeps_pin_of_changes_at_most (p q : Nat) (hp : p < 20) (hq : q < 20) (hpq : p ≠ q)
    (t t2 : Mcu) (h : changes_at_most (gpio_map p) p t t2) : keeps_pin q t t2 := by
  obtain ⟨hd, hpo⟩ := gpio_map_distinct p q hp hq hpq
  obtain ⟨-, hpin, -⟩ := gpio_map_valid q hq
  exact ⟨h.1 _ _ hpin hd, h.1 _ _ hpin hpo, h.2 q (fun hh => hpq hh.symm)⟩

/-- C18: in every state `t` a program reaches from program start, for distinct valid ids
`p` and `q`, each of `gpio_new(p, d)`, `gpio_write` on the structure of `p` and
`gpio_del` of the structure of `p` changes at most bit `pin` of the direction register
and of the output register of `p` and registry bit `p`, and so leaves the direction bit,
the output bit and the registry bit of `q` as they are. -/
theorem pins_do_not_interfere (s : Mcu) (cs : List Call) (t : Mcu)
    (ht : t = ((World.start s).run cs).mcu) (p q : Nat) (hp : p < 20) (hq : q < 20)
    (hpq : p ≠ q) (d : gpio_direction_t) (ok v : Bool) :
    (changes_at_most (gpio_map p) p t (gpio_new p d ok t).1 ∧
      keeps_pin q t (gpio_new p d ok t).1) ∧
    (changes_at_most (gpio_map p) p t (gpio_write (some (gpio_map p)) v t) ∧
      keeps_pin q t (gpio_write (some (gpio_map p)) v t)) ∧
    (changes_at_most (gpio_map p) p t (gpio_del (some (some (gpio_map p))) t).1 ∧
      keeps_pin q t (gpio_del (some (some (gpio_map p))) t).1) := by
  have hreg : t.pin_registry < 2 ^ 16 := by
    rw [ht]
    exact run_pin_registry_lt s cs
  have h1 := changes_at_most_gpio_new p hp d ok t hreg
  have h2 := changes_at_most_gpio_write p hp v t
  have h3 := changes_at_most_gpio_del p hp t hreg
  exact ⟨⟨h1, keeps_pin_of_changes_at_most p q hp hq hpq _ _ h1⟩,
    ⟨h2, keeps_pin_of_changes_at_most p q hp hq hpq _ _ h2⟩,
    ⟨h3, keeps_pin_of_changes_at_most p q hp hq hpq _ _ h3⟩⟩

/-- Witness of C18: the pins 8 and 9 of port B, in the state after both were acquired
as outputs and pin 9 was written high; deleting the structure of pin 8 keeps the
direction bit, the output bit and the registry bit of pin 9. -/
theorem pins_do_not_interfere_witness :
    keeps_pin 9
      ((World.start Mcu.reset).run [.new 8 .GPIO_DIRECTION_OUT true,
        .new 9 .GPIO_DIRECTION_OUT true, .write (gpio_map 9) true]).mcu
      (gpio_del (some (some (gpio_map 8)))
        ((World.start Mcu.reset).run [.new 8 .GPIO_DIRECTION_OUT true,
          .new 9 .GPIO_DIRECTION_OUT true, .write (gpio_map 9) true]).mcu).1 :=
  (pins_do_not_interfere Mcu.reset
    [.new 8 .GPIO_DIRECTION_OUT true, .new 9 .GPIO_DIRECTION_OUT true,
      .write (gpio_map 9) true] _ rfl 8 9 (by decide) (by decide) (by decide)
    .GPIO_DIRECTION_OUT true true).2.2.2

/-! ## A structure acquired as output, ids below 16 (claims C11, C12) -/

/-- One step keeps every structure the caller holds of the form `gpio_map q`, `q < 20`. -/
theorem step_live_valid (w : World) (c : Call)
    (hlive : ∀ g ∈ w.live, ∃ q, q < 20 ∧ g = gpio_map q) :
    ∀ g ∈ (w.step c).live, ∃ q, q < 20 ∧ g = gpio_map q := by
  cases c with
  | new pin direction malloc_ok =>
    cases hres : gpio_new pin direction malloc_ok w.mcu with
    | mk s1 o =>
      cases o with
      | none =>
        have hstep : (w.step (.new pin direction malloc_ok)).live = w.live := by
          simp only [World.step, hres]
        rw [hstep]
        exact hlive
      | some g0 =>
        obtain ⟨-, -, h20, hg, -⟩ := gpio_new_some hres
        have hstep : (w.step (.new pin direction malloc_ok)).live = g0 :: w.live := by
          simp only [World.step, hres]
        rw [hstep]
        intro g hmem
        rcases List.mem_cons.mp hmem with h | h
        · exact ⟨pin, h20, h.trans hg⟩
        · exact hlive g h
  | del g0 =>
    simp only [World.step]
    split
    · intro g hmem
      exact hlive g (List.mem_of_mem_erase hmem)
    · exact hlive
  | read g0 =>
    simp only [World.step]
    split
    · exact hlive
    · exact hlive
  | write g0 value =>
    simp only [World.step]
    split
    · exact hlive
    · exact hlive
  | toggle g0 =>
    simp only [World.step]
    split
    · exact hlive
    · exact hlive
  | levels b c d => exact hlive

theorem run_live_valid (s : Mcu) (cs : List Call) :
    ∀ g ∈ ((World.start s).run cs).live, ∃ q, q < 20 ∧ g = gpio_map q := by
  have h0 : ∀ g ∈ (World.start s).live, ∃ q, q < 20 ∧ g = gpio_map q := by
    intro g hg
    cases hg
  exact World.run_induction (fun w => ∀ g ∈ w.live, ∃ q, q < 20 ∧ g = gpio_map q)
    step_live_valid cs _ h0

/-- A `gpio_toggle` on any structure on one port leaves every direction register as it
is. -/
theorem load_ddrx_gpio_toggle (g g2 : gpio_t) (h : on_one_port g) (h2 : on_one_port g2)
    (t : Mcu) : load g2.ddrx (gpio_toggle (some g) t) = load g2.ddrx t := by
  simp only [gpio_toggle]
  split
  · rfl
  · rcases h with ⟨-, -, hi⟩ | ⟨-, -, hi⟩ | ⟨-, -, hi⟩ <;>
      rcases h2 with ⟨hd, -, -⟩ | ⟨hd, -, -⟩ | ⟨hd, -, -⟩ <;>
      rw [hi, hd] <;> rfl

/-- One step other than the `gpio_del` of the structure of `p` keeps registry bit `p`
and the direction bit of `p` set, for an id `p` below 16. -/
theorem step_keeps_output (p : Nat) (hp : p < 16) (w : World) (c : Call)
    (hc : c ≠ .del (gpio_map p))
    (hreg : w.mcu.pin_registry < 2 ^ 16)
    (hlive : ∀ g ∈ w.live, ∃ q, q < 20 ∧ g = gpio_map q)
    (hbit : w.mcu.pin_registry.testBit p = true)
    (hout : (load (gpio_map p).ddrx w.mcu).testBit (gpio_map p).pin = true) :
    (w.step c).mcu.pin_registry.testBit p = true ∧
    (load (gpio_map p).ddrx (w.step c).mcu).testBit (gpio_map p).pin = true := by
  have hp20 : p < 20 := by omega
  obtain ⟨hport, hpin, -⟩ := gpio_map_valid p hp20
  cases c with
  | new pin direction malloc_ok =>
    cases hres : gpio_new pin direction malloc_ok w.mcu with
    | mk s1 o =>
      cases o with
      | none =>
        have h := gpio_new_eq_of_none pin direction malloc_ok w.mcu (by rw [hres])
        rw [hres] at h
        simp only [Prod.mk.injEq] at h
        have hstep : w.step (.new pin direction malloc_ok) = w := by
          simp only [World.step, hres, h.1]
        rw [hstep]
        exact ⟨hbit, hout⟩
      | some g0 =>
        obtain ⟨hfree, -, h20, -, -⟩ := gpio_new_some hres
        have hne : pin ≠ p := by
          intro hpp
          subst hpp
          rw [is_pin_free_eq] at hfree
          simp [hp, hbit] at hfree
        have hstep : (w.step (.new pin direction malloc_ok)).mcu
            = (gpio_new pin direction malloc_ok w.mcu).1 := by
          simp only [World.step, hres]
        have hch := changes_at_most_gpio_new pin h20 direction malloc_ok w.mcu hreg
        obtain ⟨hk1, -, hk3⟩ := keeps_pin_of_changes_at_most pin p h20 hp20 hne _ _ hch
        rw [hstep, hk1, hk3]
        exact ⟨hbit, hout⟩
  | del g0 =>
    simp only [World.step]
    split
    · rename_i hmem
      obtain ⟨q, hq20, hg⟩ := hlive g0 hmem
      have hne : q ≠ p := by
        intro hqp
        apply hc
        rw [hg, hqp]
      subst hg
      have hch := changes_at_most_gpio_del q hq20 w.mcu hreg
      obtain ⟨hk1, -, hk3⟩ := keeps_pin_of_changes_at_most q p hq20 hp20 hne _ _ hch
      rw [hk1, hk3]
      exact ⟨hbit, hout⟩
    · exact ⟨hbit, hout⟩
  | read g0 =>
    simp only [World.step]
    split
    · exact ⟨hbit, hout⟩
    · exact ⟨hbit, hout⟩
  | write g0 value =>
    simp only [World.step]
    split
    · rename_i hmem
      obtain ⟨q, hq20, hg⟩ := hlive g0 hmem
      subst hg
      refine ⟨by rw [gpio_write_pin_registry]; exact hbit, ?_⟩
      by_cases hqp : q = p
      · subst hqp
        rw [(gpio_write_bits (gpio_map q) hport hpin w.mcu value hout).2]
        exact hout
      · have hch := changes_at_most_gpio_write q hq20 value w.mcu
        obtain ⟨hk1, -, -⟩ := keeps_pin_of_changes_at_most q p hq20 hp20 hqp _ _ hch
        rw [hk1]
        exact hout
    · exact ⟨hbit, hout⟩
  | toggle g0 =>
    simp only [World.step]
    split
    · rename_i hmem
      obtain ⟨q, hq20, hg⟩ := hlive g0 hmem
      subst hg
      refine ⟨by rw [gpio_toggle_pin_registry]; exact hbit, ?_⟩
      rw [load_ddrx_gpio_toggle (gpio_map q) (gpio_map p) (gpio_map_valid q hq20).1 hport]
      exact hout
    · exact ⟨hbit, hout⟩
  | levels b c d =>
    refine ⟨hbit, ?_⟩
    have hl : load (gpio_map p).ddrx (w.step (.levels b c d)).mcu
        = load (gpio_map p).ddrx w.mcu := by
      rcases hport with ⟨hd, -, -⟩ | ⟨hd, -, -⟩ | ⟨hd, -, -⟩ <;> rw [hd] <;> rfl
    rw [hl]
    exact hout

/-- A program without the `gpio_del` of the structure of `p` keeps registry bit `p` and
the direction bit of `p` set, for an id `p` below 16. -/
theorem run_keeps_output (p : Nat) (hp : p < 16) (post : List Call) :
    Call.del (gpio_map p) ∉ post → ∀ w : World,
      w.mcu.pin_registry < 2 ^ 16 →
      (∀ g ∈ w.live, ∃ q, q < 20 ∧ g = gpio_map q) →
      w.mcu.pin_registry.testBit p = true →
      (load (gpio_map p).ddrx w.mcu).testBit (gpio_map p).pin = true →
      (load (gpio_map p).ddrx (w.run post).mcu).testBit (gpio_map p).pin = true := by
  induction post with
  | nil =>
    intro _ w _ _ _ hout
    exact hout
  | cons c cs ih =>
    intro hpost w hreg hlive hbit hout
    have hc : c ≠ .del (gpio_map p) := fun h => hpost (by rw [h]; exact List.mem_cons_self _ _)
    have hcs : Call.del (gpio_map p) ∉ cs := fun h => hpost (List.mem_cons_of_mem _ h)
    obtain ⟨hbit2, hout2⟩ := step_keeps_output p hp w c hc hreg hlive hbit hout
    exact ih hcs (w.step c) (step_pin_registry_lt w c hreg) (step_live_valid w c hlive)
      hbit2 hout2

/-- For an id `p` below 16: after any program `pre` from program start, a successful
`gpio_new(p, GPIO_DIRECTION_OUT)` and any further program `post` in which the structure
of `p` is not passed to `gpio_del`, the direction bit of `p` is still 1. -/
theorem output_kept_of_lt_16 (s : Mcu) (pre post : List Call) (p : Nat) (hp : p < 16)
    (ok : Bool)
    (hacq : (gpio_new p .GPIO_DIRECTION_OUT ok ((World.start s).run pre).mcu).2 ≠ none)
    (hpost : Call.del (gpio_map p) ∉ post) :
    (load (gpio_map p).ddrx
      ((World.start s).run (pre ++ Call.new p .GPIO_DIRECTION_OUT ok :: post)).mcu).testBit
        (gpio_map p).pin = true := by
  have hp20 : p < 20 := by omega
  have h32 : p < 32 := by omega
  obtain ⟨hport, hpin, -⟩ := gpio_map_valid p hp20
  have hrun : (World.start s).run (pre ++ Call.new p .GPIO_DIRECTION_OUT ok :: post)
      = (((World.start s).run pre).step (.new p .GPIO_DIRECTION_OUT ok)).run post := by
    simp only [World.run, List.foldl_append, List.foldl_cons]
  rw [hrun]
  have hreg1 := run_pin_registry_lt s pre
  have hlive1 := run_live_valid s pre
  cases hres : gpio_new p .GPIO_DIRECTION_OUT ok ((World.start s).run pre).mcu with
  | mk s1 o =>
    cases o with
    | none =>
      rw [hres] at hacq
      exact absurd rfl hacq
    | some g0 =>
      obtain ⟨-, -, -, -, hs1⟩ := gpio_new_some hres
      have hmcu : (((World.start s).run pre).step (.new p .GPIO_DIRECTION_OUT ok)).mcu = s1 := by
        simp only [World.step, hres]
      apply run_keeps_output p hp post hpost
      · exact step_pin_registry_lt _ _ hreg1
      · exact step_live_valid _ _ hlive1
      · rw [hmcu, hs1, gpio_init_pin_registry, testBit_mod_u32]
        simp [testBit_shl_1U, hp, h32]
      · rw [hmcu, hs1]
        have hd := (direction_bits (gpio_map p) hport hpin ((World.start s).run pre).mcu).1.1
        simpa only [gpio_init, load_reserve_pin] using hd

/-- For an id below 16 the write/read round trip holds for a structure acquired as
output as long as the caller holds it: in the state after any program `pre`, a
successful `gpio_new(p, GPIO_DIRECTION_OUT)` and any program `post` without the
`gpio_del` of the structure, `gpio_write(g, v)` followed by `gpio_read(g)` returns `v`,
the hardware echo applied in between. -/
theorem round_trip_of_lt_16 (s : Mcu) (pre post : List Call) (p : Nat) (hp : p < 16)
    (ok : Bool)
    (hacq : (gpio_new p .GPIO_DIRECTION_OUT ok ((World.start s).run pre).mcu).2 ≠ none)
    (hpost : Call.del (gpio_map p) ∉ post) (v : Bool) :
    (gpio_read (some (gpio_map p)) (hw_echo (gpio_write (some (gpio_map p)) v
      ((World.start s).run (pre ++ Call.new p .GPIO_DIRECTION_OUT ok :: post)).mcu))).2
      = v := by
  have hp20 : p < 20 := by omega
  obtain ⟨hport, hpin, -⟩ := gpio_map_valid p hp20
  have hout := output_kept_of_lt_16 s pre post p hp ok hacq hpost
  obtain ⟨hbit, hddr⟩ := gpio_write_bits (gpio_map p) hport hpin _ v hout
  rw [gpio_read_hw_echo (gpio_map p) hport hpin _ (by rw [hddr]; exact hout)]
  exact hbit

/-- For an id below 16 a structure acquired as output toggles as long as the caller
holds it: in the state after any program `pre`, a successful
`gpio_new(p, GPIO_DIRECTION_OUT)` and any program `post` without the `gpio_del` of the
structure, one `gpio_toggle(g)` inverts the output-register bit of the pin and two
calls restore it. -/
theorem toggle_pair_of_lt_16 (s : Mcu) (pre post : List Call) (p : Nat) (hp : p < 16)
    (ok : Bool)
    (hacq : (gpio_new p .GPIO_DIRECTION_OUT ok ((World.start s).run pre).mcu).2 ≠ none)
    (hpost : Call.del (gpio_map p) ∉ post) (t : Mcu)
    (ht : t = ((World.start s).run (pre ++ Call.new p .GPIO_DIRECTION_OUT ok :: post)).mcu) :
    (load (gpio_map p).portx (gpio_toggle (some (gpio_map p)) t)).testBit (gpio_map p).pin
      = !(load (gpio_map p).portx t).testBit (gpio_map p).pin ∧
    (load (gpio_map p).portx (gpio_toggle (some (gpio_map p))
      (gpio_toggle (some (gpio_map p)) t))).testBit (gpio_map p).pin
      = (load (gpio_map p).portx t).testBit (gpio_map p).pin := by
  have hp20 : p < 20 := by omega
  obtain ⟨hport, hpin, -⟩ := gpio_map_valid p hp20
  have hout : (load (gpio_map p).ddrx t).testBit (gpio_map p).pin = true := by
    rw [ht]
    exact output_kept_of_lt_16 s pre post p hp ok hacq hpost
  obtain ⟨h1, hd1⟩ := gpio_toggle_bits (gpio_map p) hport hpin t hout
  have hout1 : (load (gpio_map p).ddrx
      (gpio_toggle (some (gpio_map p)) t)).testBit (gpio_map p).pin = true := by
    rw [hd1]; exact hout
  obtain ⟨h2, -⟩ := gpio_toggle_bits (gpio_map p) hport hpin _ hout1
  exact ⟨h1, by rw [h2, h1, Bool.not_not]⟩

/-- On every state of a running program the registry test agrees with the registry bit
for every id: `is_pin_free(id)` is true exactly when `id < 20` and bit `id` is 0. -/
theorem is_pin_free_iff_of_run (s : Mcu) (cs : List Call) (id : Nat) :
    is_pin_free id ((World.start s).run cs).mcu = true ↔
      (id < 20 ∧ ((World.start s).run cs).mcu.pin_registry.testBit id = false) := by
  have hreg := run_pin_registry_lt s cs
  rw [is_pin_free_eq]
  by_cases h16 : id < 16
  · have h20 : id < 20 := by omega
    simp [h16, h20]
  · have hb := testBit_of_lt_two_pow_16 _ id hreg (by omega)
    simp [h16, hb]

end GpioDriver
